import Mathlib

/-!
Verification of the `conut-coo-agent` OpenClaw plugin and its frontend
(`openclaw/conut-coo-agent/conut-coo-agent.ts`, `frontend/src/lib/api.ts`,
`frontend/src/types/api.d.ts`, `frontend/src/App.tsx`).

The development shallowly embeds the plugin's tool schemas (`TOOL_SPECS`),
the backend-URL candidate construction (`buildApiUrlCandidates`), the
HTTP forwarding loop (`callBackend`), the tool-output formatter
(`formatToolOutput` together with a model of the JavaScript
`JSON.stringify` / `JSON.parse` pair), and the dashboard's derived
activity view (`recentAgentEvents`), and proves the stated properties
about them.
-/

namespace ConutCoo

/-- JSON values as they cross the plugin boundary.  Numbers are modelled
as exact decimals `m / 10 ^ e` (a JSON numeric literal is a decimal
string; this model ignores IEEE-754 double rounding, which the code
never relies on). -/
inductive Json where
  | null
  | bool (b : Bool)
  | num (m : Int) (e : Nat)
  | str (s : String)
  | arr (items : List Json)
  | obj (fields : List (String × Json))

/-- Numeric order on decimal literals: `m1 / 10^e1 ≤ m2 / 10^e2`. -/
def decLe (m1 : Int) (e1 : Nat) (m2 : Int) (e2 : Nat) : Bool :=
  m1 * (10 : Int) ^ e2 ≤ m2 * (10 : Int) ^ e1

/-- A decimal literal denotes a mathematical integer
(JSON Schema `type: integer` accepts any number with zero fractional part). -/
def decIsInt (m : Int) (e : Nat) : Bool :=
  m % (10 : Int) ^ e == 0

/-- The string patterns occurring in `TOOL_SPECS`. -/
inductive PatternId where
  | yyyyMm
deriving DecidableEq

/-- Evaluation of `matchesPattern .yyyyMm` embeds the anchored regular expression
`^\d{4}-\d{2}$` of the `target_period` property. -/
def matchesPattern : PatternId → String → Bool
  | .yyyyMm, s =>
    match s.data with
    | [a, b, c, d, dash, e, f] =>
      a.isDigit && b.isDigit && c.isDigit && d.isDigit &&
      dash == '-' && e.isDigit && f.isDigit
    | _ => false

/-- The JSON-schema `type` keyword values used by `TOOL_SPECS`. -/
inductive PType where
  | tString
  | tNumber
  | tInteger
  | tArray
deriving DecidableEq

/-- One property of a tool's JSON-schema `properties` object, covering
exactly the keywords `TOOL_SPECS` uses (`type`, `enum`, `minimum`,
`maximum`, `pattern`, `items` with string type and optional `enum`,
`default`). -/
structure PropSpec where
  name : String
  ptype : PType
  strEnum : Option (List String) := none
  minimum : Option (Int × Nat) := none
  maximum : Option (Int × Nat) := none
  pat : Option PatternId := none
  itemEnum : Option (List String) := none
  default : Option Json := none

/-- One entry of the plugin's `TOOL_SPECS` array: name, backend path,
and the parameter schema (`type: object`, `additionalProperties: false`,
`required`, `properties`). -/
structure ToolSpec where
  name : String
  path : String
  required : List String := []
  properties : List PropSpec

/-- Does a single JSON value satisfy a property's schema keywords? -/
def validValue (ps : PropSpec) (v : Json) : Bool :=
  match ps.ptype, v with
  | .tString, .str s =>
    (match ps.strEnum with | some es => es.contains s | none => true) &&
    (match ps.pat with | some p => matchesPattern p s | none => true)
  | .tNumber, .num m e =>
    (match ps.minimum with | some (lm, le) => decLe lm le m e | none => true) &&
    (match ps.maximum with | some (um, ue) => decLe m e um ue | none => true)
  | .tInteger, .num m e =>
    decIsInt m e &&
    (match ps.minimum with | some (lm, le) => decLe lm le m e | none => true) &&
    (match ps.maximum with | some (um, ue) => decLe m e um ue | none => true)
  | .tArray, .arr items =>
    items.all fun item =>
      match item with
      | .str s => (match ps.itemEnum with | some es => es.contains s | none => true)
      | _ => false
  | _, _ => false

/-- Field lookup in a JSON object (the first binding wins). -/
def lookupField (fields : List (String × Json)) (k : String) : Option Json :=
  match fields.find? (fun p => p.1 == k) with
  | some p => some p.2
  | none => none

/-- JSON-schema validation of a request object against a tool's
parameter schema: `additionalProperties: false`, the `required` list,
and each declared property's keywords on present fields. -/
def objValid (ts : ToolSpec) (fields : List (String × Json)) : Bool :=
  fields.all (fun p => ts.properties.any (fun ps => ps.name == p.1)) &&
  ts.required.all (fun r => (lookupField fields r).isSome) &&
  ts.properties.all fun ps =>
    match lookupField fields ps.name with
    | some v => validValue ps v
    | none => true

/-- The `default` recorded for a property of a tool schema. -/
def defaultOf (ts : ToolSpec) (k : String) : Option Json :=
  match ts.properties.find? (fun ps => ps.name == k) with
  | some ps => ps.default
  | none => none

/-- The `enum` recorded for a string property of a tool schema. -/
def enumOf (ts : ToolSpec) (k : String) : Option (List String) :=
  match ts.properties.find? (fun ps => ps.name == k) with
  | some ps => ps.strEnum
  | none => none

/-- The `mode` property of the combo schema. -/
def comboModeProp : PropSpec :=
  { name := "mode", ptype := .tString
    strEnum := some ["top_combos", "with_item", "branch_pairs"]
    default := some (.str "top_combos") }

/-- The `include_categories` property of the combo schema. -/
def comboIncludeCategoriesProp : PropSpec :=
  { name := "include_categories", ptype := .tArray
    itemEnum := some ["beverage", "sweet", "savory", "other"]
    default := some (.arr []) }

/-- The `top_n` property of the combo schema. -/
def comboTopNProp : PropSpec :=
  { name := "top_n", ptype := .tInteger
    minimum := some (1, 0), maximum := some (20, 0)
    default := some (.num 5 0) }

/-- The `min_support` property of the combo schema (default `0.02`). -/
def comboMinSupportProp : PropSpec :=
  { name := "min_support", ptype := .tNumber
    minimum := some (0, 0), maximum := some (1, 0)
    default := some (.num 2 2) }

/-- The `min_confidence` property of the combo schema (default `0.3`). -/
def comboMinConfidenceProp : PropSpec :=
  { name := "min_confidence", ptype := .tNumber
    minimum := some (0, 0), maximum := some (1, 0)
    default := some (.num 3 1) }

/-- The `min_lift` property of the combo schema (default `1.0`). -/
def comboMinLiftProp : PropSpec :=
  { name := "min_lift", ptype := .tNumber
    minimum := some (0, 0)
    default := some (.num 10 1) }

/-- Entry `TOOL_SPECS[0]`: the `conut_combo_optimization` schema. -/
def comboSpec : ToolSpec :=
  { name := "conut_combo_optimization"
    path := "/tools/recommend_combos"
    properties :=
      [ comboModeProp
      , { name := "branch", ptype := .tString }
      , { name := "anchor_item", ptype := .tString }
      , comboIncludeCategoriesProp
      , { name := "exclude_items", ptype := .tArray
          default := some (.arr []) }
      , comboTopNProp
      , comboMinSupportProp
      , comboMinConfidenceProp
      , comboMinLiftProp ] }

/-- The `horizon_days` property of the forecast schema. -/
def forecastHorizonProp : PropSpec :=
  { name := "horizon_days", ptype := .tInteger
    minimum := some (1, 0), maximum := some (31, 0)
    default := some (.num 7 0) }

/-- Entry `TOOL_SPECS[1]`: the `conut_demand_forecast` schema. -/
def forecastSpec : ToolSpec :=
  { name := "conut_demand_forecast"
    path := "/tools/forecast_demand"
    required := ["branch"]
    properties :=
      [ { name := "branch", ptype := .tString }
      , forecastHorizonProp ] }

/-- Entry `TOOL_SPECS[2]`: the `conut_expansion_feasibility` schema. -/
def expansionSpec : ToolSpec :=
  { name := "conut_expansion_feasibility"
    path := "/tools/expansion_feasibility"
    required := ["candidate_location"]
    properties :=
      [ { name := "candidate_location", ptype := .tString }
      , { name := "target_region", ptype := .tString } ] }

/-- Entry `TOOL_SPECS[3]`: the `conut_shift_staffing` schema. -/
def staffingSpec : ToolSpec :=
  { name := "conut_shift_staffing"
    path := "/tools/estimate_staffing"
    required := ["branch", "shift_name"]
    properties :=
      [ { name := "branch", ptype := .tString }
      , { name := "target_period", ptype := .tString, pat := some .yyyyMm }
      , { name := "day_of_week", ptype := .tString
          strEnum := some ["Mon", "Tue", "Wed", "Thu", "Fri", "Sat", "Sun"] }
      , { name := "shift_name", ptype := .tString
          strEnum := some ["morning", "afternoon", "evening", "night"] }
      , { name := "shift_hours", ptype := .tNumber
          minimum := some (1, 1), maximum := some (24, 0)
          default := some (.num 80 1) }
      , { name := "buffer_pct", ptype := .tNumber
          minimum := some (0, 0), maximum := some (1, 0)
          default := some (.num 15 2) }
      , { name := "demand_override", ptype := .tNumber
          minimum := some (0, 0) } ] }

/-- Entry `TOOL_SPECS[4]`: the `conut_growth_strategy` schema. -/
def growthSpec : ToolSpec :=
  { name := "conut_growth_strategy"
    path := "/tools/growth_strategy"
    properties :=
      [ { name := "branch", ptype := .tString }
      , { name := "focus_categories", ptype := .tArray
          default := some (.arr [.str "coffee", .str "milkshake"]) } ] }

/-- The plugin's `TOOL_SPECS` array, in source order. -/
def TOOL_SPECS : List ToolSpec :=
  [comboSpec, forecastSpec, expansionSpec, staffingSpec, growthSpec]

/-- The `minimum` recorded for a property of a tool schema. -/
def minimumOf (ts : ToolSpec) (k : String) : Option (Int × Nat) :=
  match ts.properties.find? (fun ps => ps.name == k) with
  | some ps => ps.minimum
  | none => none

/-- The `maximum` recorded for a property of a tool schema. -/
def maximumOf (ts : ToolSpec) (k : String) : Option (Int × Nat) :=
  match ts.properties.find? (fun ps => ps.name == k) with
  | some ps => ps.maximum
  | none => none

/-- The `pattern` recorded for a property of a tool schema. -/
def patternOf (ts : ToolSpec) (k : String) : Option PatternId :=
  match ts.properties.find? (fun ps => ps.name == k) with
  | some ps => ps.pat
  | none => none

/-- Modelled from the spec: the category set of the Category Taxonomy —
"mapping from item name (or substring keyword) to one of {beverage
subtype (coffee, milkshake, other-beverage), sweet, savory, other}".
The backend's `categorize` implementation is not under `src/`; only this
category set is needed here. -/
def taxonomyCategories : List String :=
  ["coffee", "milkshake", "other-beverage", "sweet", "savory", "other"]

/-- The admissible `include_categories` values: the `items.enum` of the
combo schema's `include_categories` property. -/
def includeCategoriesEnum : List String :=
  (comboIncludeCategoriesProp.itemEnum).getD []

/-- Name and requiredness of one field of a request interface. -/
structure FieldSig where
  name : String
  required : Bool
deriving DecidableEq

/-- The staffing-request fields exactly as the claim states them:
branch (required), target_period, day_of_week, shift_name (required),
shift_hours, buffer_pct, demand_override. -/
def claimedStaffingFields : List FieldSig :=
  [⟨"branch", true⟩, ⟨"target_period", false⟩, ⟨"day_of_week", false⟩,
   ⟨"shift_name", true⟩, ⟨"shift_hours", false⟩, ⟨"buffer_pct", false⟩,
   ⟨"demand_override", false⟩]

/-- Field signatures of the body type of `estimateStaffing` in
`frontend/src/lib/api.ts` (optional fields carry `?` there). -/
def estimateStaffingBodyFields : List FieldSig :=
  [⟨"branch", true⟩, ⟨"target_period", false⟩, ⟨"day_of_week", false⟩,
   ⟨"shift_name", true⟩, ⟨"shift_hours", false⟩, ⟨"buffer_pct", false⟩,
   ⟨"demand_override", false⟩]

/-- Field signatures of the request body of
`paths["/tools/estimate_staffing"]` in `frontend/src/types/api.d.ts`
(the checked-in generated placeholder). -/
def apiDtsStaffingFields : List FieldSig :=
  [⟨"branch", true⟩, ⟨"shift", false⟩, ⟨"target_date", false⟩]

/-- Field signatures a tool schema declares: its property names, with
requiredness read off the schema's `required` list. -/
def schemaFieldSigs (ts : ToolSpec) : List FieldSig :=
  ts.properties.map (fun ps => ⟨ps.name, ts.required.contains ps.name⟩)

/-- A request used to witness the combo-schema acceptance theorem. -/
def comboSampleRequest : List (String × Json) :=
  [("mode", .str "with_item"), ("anchor_item", .str "latte"),
   ("top_n", .num 5 0), ("min_support", .num 2 2),
   ("min_confidence", .num 3 1), ("min_lift", .num 10 1)]

/-- JavaScript `a || b` for an environment variable: `none` models an
unset variable, and the empty string is falsy. -/
def jsOrDefault (v : Option String) (dflt : String) : String :=
  match v with
  | some s => if s = "" then dflt else s
  | none => dflt

/-- Embeds `value.replace(/\/+$/, "")`: remove the maximal run of
trailing slashes. -/
def stripTrailingSlashes (s : String) : String :=
  ⟨(s.data.reverse.dropWhile (fun c => c == '/')).reverse⟩

/-- Does a string end with a slash? -/
def endsWithSlash (s : String) : Bool :=
  match s.data.getLast? with
  | some c => c == '/'
  | none => false

/-- Embeds `DEFAULT_API_URL = (USER_API_URL ||
"http://127.0.0.1:8000").replace(/\/+$/, "")`, with the `CONUT_API_URL`
environment variable passed explicitly. -/
def DEFAULT_API_URL (env : Option String) : String :=
  stripTrailingSlashes (jsOrDefault env "http://127.0.0.1:8000")

/-- The loop body of `buildApiUrlCandidates`: normalize one value
(the source binds `normalized = value.replace(/\/+$/, "")`) and push it
unless already present. -/
def pushIfAbsent (candidates : List String) (value : String) : List String :=
  if candidates.contains (stripTrailingSlashes value) then candidates
  else candidates ++ [stripTrailingSlashes value]

/-- Embeds `buildApiUrlCandidates`. -/
def buildApiUrlCandidates (env : Option String) : List String :=
  let defaults := [DEFAULT_API_URL env, "http://127.0.0.1:8000",
    "http://localhost:8000", "http://host.docker.internal:8000"]
  defaults.foldl pushIfAbsent []

/-- The decimal digit character for `k < 10`. -/
def digitChar (k : Nat) : Char :=
  match k with
  | 0 => '0' | 1 => '1' | 2 => '2' | 3 => '3' | 4 => '4'
  | 5 => '5' | 6 => '6' | 7 => '7' | 8 => '8' | _ => '9'

/-- The numeric value of a decimal digit character. -/
def digitVal (c : Char) : Nat := c.toNat - 48

/-- Decimal digit printing loop with explicit fuel (any fuel above `n`
yields the digits of `n`, most significant first). -/
def natToDigitsAux : Nat → Nat → List Char
  | 0, _ => []
  | fuel + 1, n =>
    if n < 10 then [digitChar n]
    else natToDigitsAux fuel (n / 10) ++ [digitChar (n % 10)]

/-- Decimal digit string of `n`, most significant digit first. -/
def natToDigits (n : Nat) : List Char :=
  natToDigitsAux (n + 1) n

/-- Value of a decimal digit string. -/
def digitsToNat (cs : List Char) : Nat :=
  cs.foldl (fun a c => a * 10 + digitVal c) 0

/-- The lowercase hexadecimal digit character for `k < 16` (as emitted
by JavaScript string escaping). -/
def hexDigitChar (k : Nat) : Char :=
  match k with
  | 0 => '0' | 1 => '1' | 2 => '2' | 3 => '3' | 4 => '4'
  | 5 => '5' | 6 => '6' | 7 => '7' | 8 => '8' | 9 => '9'
  | 10 => 'a' | 11 => 'b' | 12 => 'c' | 13 => 'd' | 14 => 'e' | _ => 'f'

/-- Is `c` a hexadecimal digit (either case)? -/
def isHexDigitCh (c : Char) : Bool :=
  c.isDigit || ('a' ≤ c && c ≤ 'f') || ('A' ≤ c && c ≤ 'F')

/-- The numeric value of a hexadecimal digit character. -/
def hexVal (c : Char) : Nat :=
  if c.isDigit then c.toNat - 48
  else if 'a' ≤ c && c ≤ 'f' then c.toNat - 87
  else c.toNat - 55

/-- How `JSON.stringify` escapes one character inside a string literal:
quote and backslash get a backslash escape, the five named control
characters get their short escapes, every other control character gets a
`\u00XX` escape, and all remaining characters stand for themselves. -/
def escChar (c : Char) : List Char :=
  if c = '"' then ['\\', '"']
  else if c = '\\' then ['\\', '\\']
  else if c.toNat = 8 then ['\\', 'b']
  else if c.toNat = 9 then ['\\', 't']
  else if c.toNat = 10 then ['\\', 'n']
  else if c.toNat = 12 then ['\\', 'f']
  else if c.toNat = 13 then ['\\', 'r']
  else if c.toNat < 32 then
    ['\\', 'u', '0', '0', hexDigitChar (c.toNat / 16), hexDigitChar (c.toNat % 16)]
  else [c]

/-- The characters of a serialized string body (without the quotes). -/
def printStringBody (cs : List Char) : List Char :=
  (cs.map escChar).flatten

/-- Serialization of a JSON string, quotes included. -/
def printString (s : String) : List Char :=
  '"' :: printStringBody s.data ++ ['"']

/-- Insertion of a decimal point `e` places from the right of a digit
string. -/
def padDecimal (ds : List Char) (e : Nat) : List Char :=
  ds.take (ds.length - e) ++ '.' :: ds.drop (ds.length - e)

/-- Serialization of the decimal number `m / 10 ^ e`: the digits of `m`
with a decimal point inserted `e` places from the right (zero-padded so
at least one digit stands before the point). -/
def printNum (m : Int) (e : Nat) : List Char :=
  (if m < 0 then ['-'] else []) ++
  (if e = 0 then natToDigits m.natAbs
   else
     padDecimal (List.replicate (e + 1 - (natToDigits m.natAbs).length) '0' ++
       natToDigits m.natAbs) e)

/-- Resolution of a single-character escape in a string literal (the
`\uXXXX` form is handled separately). -/
def unescape (c : Char) : Option Char :=
  if c = '"' then some '"'
  else if c = '\\' then some '\\'
  else if c = '/' then some '/'
  else if c = 'b' then some (Char.ofNat 8)
  else if c = 't' then some (Char.ofNat 9)
  else if c = 'n' then some (Char.ofNat 10)
  else if c = 'f' then some (Char.ofNat 12)
  else if c = 'r' then some (Char.ofNat 13)
  else none

/-- Scan a string-literal body up to its closing quote, resolving
escapes; returns the decoded characters and the input past the quote. -/
def parseStringBody : List Char → Option (List Char × List Char)
  | [] => none
  | c :: rest =>
    if c = '"' then some ([], rest)
    else if c = '\\' then
      match rest with
      | 'u' :: h1 :: h2 :: h3 :: h4 :: rest2 =>
        if isHexDigitCh h1 && isHexDigitCh h2 && isHexDigitCh h3 && isHexDigitCh h4 then
          match parseStringBody rest2 with
          | some (s, r) =>
            some (Char.ofNat
              (hexVal h1 * 4096 + hexVal h2 * 256 + hexVal h3 * 16 + hexVal h4) :: s, r)
          | none => none
        else none
      | e :: rest2 =>
        match unescape e with
        | some d =>
          match parseStringBody rest2 with
          | some (s, r) => some (d :: s, r)
          | none => none
        | none => none
      | [] => none
    else
      match parseStringBody rest with
      | some (s, r) => some (c :: s, r)
      | none => none

/-- Scan a decimal numeric literal already split off its optional sign. -/
def parseNumCore (neg : Bool) (cs1 : List Char) : Option (Json × List Char) :=
  if (cs1.takeWhile Char.isDigit).isEmpty then none
  else
    match cs1.dropWhile Char.isDigit with
    | '.' :: r2 =>
      if (r2.takeWhile Char.isDigit).isEmpty then none
      else
        some (.num
          (if neg then
            -(digitsToNat (cs1.takeWhile Char.isDigit ++ r2.takeWhile Char.isDigit) : Int)
          else
            (digitsToNat (cs1.takeWhile Char.isDigit ++ r2.takeWhile Char.isDigit) : Int))
          (r2.takeWhile Char.isDigit).length,
          r2.dropWhile Char.isDigit)
    | r1 =>
      some (.num
        (if neg then -(digitsToNat (cs1.takeWhile Char.isDigit) : Int)
         else (digitsToNat (cs1.takeWhile Char.isDigit) : Int)) 0, r1)

/-- Scan a decimal numeric literal. -/
def parseNum (cs : List Char) : Option (Json × List Char) :=
  match cs with
  | c :: t => if c = '-' then parseNumCore true t else parseNumCore false (c :: t)
  | [] => none

/-- A continuation that cannot extend a preceding numeric literal. -/
def numSafe (cs : List Char) : Bool :=
  match cs with
  | [] => true
  | c :: _ => !c.isDigit && c != '.'

mutual

/-- Serialization of a JSON value, modelling the JavaScript
`JSON.stringify` (compactly; the source's `JSON.stringify(x, null, 2)`
differs only in insignificant whitespace, which `JSON.parse` ignores). -/
def printValue : Json → List Char
  | .null => "null".data
  | .bool true => "true".data
  | .bool false => "false".data
  | .num m e => printNum m e
  | .str s => printString s
  | .arr [] => ['[', ']']
  | .arr (x :: xs) => '[' :: (printValue x ++ printItemsRest xs ++ [']'])
  | .obj [] => ['{', '}']
  | .obj (f :: fs) => '{' :: (printField f ++ printFieldsRest fs ++ ['}'])

/-- Serialization of the second and later array elements. -/
def printItemsRest : List Json → List Char
  | [] => []
  | x :: xs => ',' :: (printValue x ++ printItemsRest xs)

/-- Serialization of one object field. -/
def printField : String × Json → List Char
  | (k, v) => printString k ++ ':' :: printValue v

/-- Serialization of the second and later object fields. -/
def printFieldsRest : List (String × Json) → List Char
  | [] => []
  | f :: fs => ',' :: (printField f ++ printFieldsRest fs)

end

mutual

/-- Fuel-bounded scan of one JSON value, modelling `JSON.parse` on
whitespace-free input. -/
def parseValue : Nat → List Char → Option (Json × List Char)
  | 0, _ => none
  | _ + 1, [] => none
  | f + 1, c :: cs =>
    if c = 'n' then
      match cs with
      | 'u' :: 'l' :: 'l' :: rest => some (.null, rest)
      | _ => none
    else if c = 't' then
      match cs with
      | 'r' :: 'u' :: 'e' :: rest => some (.bool true, rest)
      | _ => none
    else if c = 'f' then
      match cs with
      | 'a' :: 'l' :: 's' :: 'e' :: rest => some (.bool false, rest)
      | _ => none
    else if c = '"' then
      match parseStringBody cs with
      | some (s, r) => some (.str (String.mk s), r)
      | none => none
    else if c = '[' then
      match cs with
      | [] => none
      | d :: ds =>
        if d = ']' then some (.arr [], ds)
        else
          match parseValue f (d :: ds) with
          | some (v, r) =>
            match parseArrRest f r with
            | some (vs, r2) => some (.arr (v :: vs), r2)
            | none => none
          | none => none
    else if c = '{' then
      match cs with
      | [] => none
      | d :: ds =>
        if d = '}' then some (.obj [], ds)
        else
          match parseField f (d :: ds) with
          | some (kv, r) =>
            match parseObjRest f r with
            | some (kvs, r2) => some (.obj (kv :: kvs), r2)
            | none => none
          | none => none
    else if c = '-' || c.isDigit then parseNum (c :: cs)
    else none

/-- Scan the remainder of a non-empty array: a `,`-separated tail of
values up to the closing bracket. -/
def parseArrRest : Nat → List Char → Option (List Json × List Char)
  | 0, _ => none
  | _ + 1, [] => none
  | f + 1, c :: cs =>
    if c = ']' then some ([], cs)
    else if c = ',' then
      match parseValue f cs with
      | some (v, r) =>
        match parseArrRest f r with
        | some (vs, r2) => some (v :: vs, r2)
        | none => none
      | none => none
    else none

/-- Scan one `"key":value` object field. -/
def parseField : Nat → List Char → Option ((String × Json) × List Char)
  | 0, _ => none
  | _ + 1, [] => none
  | f + 1, c :: cs =>
    if c = '"' then
      match parseStringBody cs with
      | some (k, r) =>
        match r with
        | ':' :: r2 =>
          match parseValue f r2 with
          | some (v, r3) => some ((String.mk k, v), r3)
          | none => none
        | _ => none
      | none => none
    else none

/-- Scan the remainder of a non-empty object: a `,`-separated tail of
fields up to the closing brace. -/
def parseObjRest : Nat → List Char → Option (List (String × Json) × List Char)
  | 0, _ => none
  | _ + 1, [] => none
  | f + 1, c :: cs =>
    if c = '}' then some ([], cs)
    else if c = ',' then
      match parseField f cs with
      | some (kv, r) =>
        match parseObjRest f r with
        | some (kvs, r2) => some (kv :: kvs, r2)
        | none => none
      | none => none
    else none

end

/-- Model of `JSON.stringify` as the plugin uses it. -/
def jsonStringify (v : Json) : String :=
  String.mk (printValue v)

/-- Model of `JSON.parse`: scan one value and require the input to be
fully consumed. -/
def jsonParse (s : String) : Option Json :=
  match parseValue (s.data.length + 1) s.data with
  | some (v, []) => some v
  | _ => none

/-- One item of a tool result's `content` array. -/
structure ContentItem where
  type : String
  text : String

/-- The return value of a tool's `execute`. -/
structure ToolOutput where
  content : List ContentItem

/-- Embeds `formatToolOutput`. -/
def formatToolOutput (toolName : String) (payload : Json) : ToolOutput :=
  { content := [ { type := "text"
                   text := jsonStringify (.obj
                     [("tool", .str toolName),
                      ("source", .str "conut-coo-agent"),
                      ("payload", payload)]) } ] }

/-- JavaScript truthiness of a JSON value (`false`, `0`, `""` and
`null` are falsy). -/
def jsTruthy : Json → Bool
  | .null => false
  | .bool b => b
  | .num m _ => m != 0
  | .str s => s != ""
  | .arr _ => true
  | .obj _ => true

/-- Embeds the `payload || {}` in `callBackend`'s fetch body. -/
def payloadOrEmpty (p : Json) : Json :=
  if jsTruthy p then p else .obj []

/-- One POST issued by `callBackend`: the request URL, the value of the
`X-Conut-Agent-Tool` header, and the serialized body. -/
structure FetchRequest where
  url : String
  agentTool : String
  body : String

/-- The backend's behavior at one request: the fetch throws (network
error or abort) or yields a response with a status and a body text. -/
inductive FetchOutcome where
  | networkError (message : String)
  | response (status : Nat) (body : String)

/-- The `response.ok` predicate: status in [200, 300). -/
def responseOk (status : Nat) : Bool :=
  200 ≤ status && status < 300

/-- Embeds the body handling in `callBackend`: an empty body is `{}`
(`rawText` is falsy), a JSON body is parsed, and a non-JSON body is
wrapped as `{raw: rawText}` by the inner catch. -/
def parseBody (rawText : String) : Json :=
  if rawText = "" then .obj []
  else
    match jsonParse rawText with
    | some d => d
    | none => .obj [("raw", .str rawText)]

/-- The error message thrown for a non-ok response. -/
def failMessage (status : Nat) (requestUrl : String) (data : Json) : String :=
  "Conut backend request failed (" ++ toString status ++ ") for " ++
    requestUrl ++ ": " ++ jsonStringify data

/-- JavaScript `Array.prototype.join(", ")`. -/
def joinComma : List String → String
  | [] => ""
  | [a] => a
  | a :: b :: t => a ++ ", " ++ joinComma (b :: t)

/-- The final error message of `callBackend` when every candidate
failed (`String(null)` is `"null"` when no error was recorded). -/
def unreachableMessage (attemptedUrls : List String) (lastError : Option String) : String :=
  "Unable to reach Conut backend after trying " ++ joinComma attemptedUrls ++
    ". Last error: " ++
    (match lastError with
     | some m => m
     | none => "null")

/-- Outcome of `callBackend`: the parsed data of the first ok response,
or the thrown error's message. -/
inductive CallResult where
  | success (data : Json)
  | failure (message : String)

/-- The candidate loop of `callBackend`, accumulating the attempted
URLs and the last error; returns the requests issued and the result.
The timeout/abort mechanics are outside the model (an abort surfaces as
a `networkError` outcome). -/
def callBackendGo (fetchAt : FetchRequest → FetchOutcome) (agentTool : String)
    (path : String) (bodyStr : String) :
    List String → List String → Option String → List FetchRequest × CallResult
  | [], attemptedUrls, lastError =>
    ([], .failure (unreachableMessage attemptedUrls lastError))
  | baseUrl :: restUrls, attemptedUrls, _lastError =>
    match fetchAt ⟨baseUrl ++ path, agentTool, bodyStr⟩ with
    | .networkError msg =>
      match callBackendGo fetchAt agentTool path bodyStr restUrls
        (attemptedUrls ++ [baseUrl ++ path]) (some msg) with
      | (reqs, res) => (⟨baseUrl ++ path, agentTool, bodyStr⟩ :: reqs, res)
    | .response status body =>
      if responseOk status then
        ([⟨baseUrl ++ path, agentTool, bodyStr⟩], .success (parseBody body))
      else
        match callBackendGo fetchAt agentTool path bodyStr restUrls
          (attemptedUrls ++ [baseUrl ++ path])
          (some (failMessage status (baseUrl ++ path) (parseBody body))) with
        | (reqs, res) => (⟨baseUrl ++ path, agentTool, bodyStr⟩ :: reqs, res)

/-- Embeds `callBackend(agentTool, path, payload)`: POST
`JSON.stringify(payload || {})` to each candidate base URL in order. -/
def callBackend (env : Option String) (fetchAt : FetchRequest → FetchOutcome)
    (agentTool : String) (path : String) (payload : Json) :
    List FetchRequest × CallResult :=
  callBackendGo fetchAt agentTool path (jsonStringify (payloadOrEmpty payload))
    (buildApiUrlCandidates env) [] none

/-- Specification-side characterization for the forwarding loop: the
body of the first URL in the list whose fetch yields an ok response. -/
def firstOkBody (fetchAt : FetchRequest → FetchOutcome) (agentTool : String)
    (bodyStr : String) : List String → Option String
  | [] => none
  | u :: rest =>
    match fetchAt ⟨u, agentTool, bodyStr⟩ with
    | .networkError _ => firstOkBody fetchAt agentTool bodyStr rest
    | .response status body =>
      if responseOk status then some body
      else firstOkBody fetchAt agentTool bodyStr rest

/-- Embeds a registered tool's `execute`: call the backend at the
tool's own path and wrap the payload with `formatToolOutput`; a failure
propagates as a thrown error. -/
def executeTool (env : Option String) (fetchAt : FetchRequest → FetchOutcome)
    (tool : ToolSpec) (input : Json) : List FetchRequest × Except String ToolOutput :=
  match callBackend env fetchAt tool.name tool.path input with
  | (reqs, .success d) => (reqs, .ok (formatToolOutput tool.name d))
  | (reqs, .failure m) => (reqs, .error m)

/-- A backend behavior answering every request with an ok empty
response, used in witnesses. -/
def alwaysOkFetch : FetchRequest → FetchOutcome :=
  fun _ => .response 200 ""

/-- One entry of the activity feed as typed in
`frontend/src/lib/api.ts` (`ToolActivityEvent`). -/
structure ToolActivityEvent where
  event_id : Int
  timestamp : String
  tool_name : String
  path : String
  source : String
  agent_tool : Option String
  payload : Json
  result_preview : Json
  raw_output : Json

/-- Embeds `recentAgentEvents` of `frontend/src/App.tsx`:
`events.filter((event) => event.source === "openclaw").slice(0, 5)`. -/
def recentAgentEvents (events : List ToolActivityEvent) : List ToolActivityEvent :=
  (events.filter (fun event => event.source == "openclaw")).take 5

/-- A sample OpenClaw-sourced activity event. -/
def demoEventA : ToolActivityEvent :=
  ⟨1, "2026-02-01T10:00:00Z", "conut_demand_forecast", "/tools/forecast_demand",
   "openclaw", some "conut_demand_forecast", .obj [], .obj [], .obj []⟩

/-- A sample frontend-sourced activity event. -/
def demoEventB : ToolActivityEvent :=
  ⟨2, "2026-02-01T10:01:00Z", "conut_growth_strategy", "/tools/growth_strategy",
   "frontend", none, .obj [], .obj [], .obj []⟩

/-- A sample fetched activity feed. -/
def demoEvents : List ToolActivityEvent :=
  [demoEventB, demoEventA]

theorem objValid_field {ts : ToolSpec} {o : List (String × Json)} {ps : PropSpec}
    (h : objValid ts o = true) (hps : ps ∈ ts.properties) {v : Json}
    (hv : lookupField o ps.name = some v) : validValue ps v = true := by
  unfold objValid at h
  simp only [Bool.and_eq_true, List.all_eq_true] at h
  have h3 := h.2 ps hps
  rw [hv] at h3
  exact h3

theorem objValid_required {ts : ToolSpec} {o : List (String × Json)} {k : String}
    (h : objValid ts o = true) (hk : k ∈ ts.required) :
    (lookupField o k).isSome = true := by
  unfold objValid at h
  simp only [Bool.and_eq_true, List.all_eq_true] at h
  exact h.1.2 k hk

/-- C1: the combo-mining request schema accepts `mode` only from
{`top_combos`, `with_item`, `branch_pairs`} (defaulting to `top_combos`),
`top_n` as an integer in [1, 20] defaulting to 5, `min_support` in [0, 1]
defaulting to 0.02, `min_confidence` in [0, 1] defaulting to 0.3, and
`min_lift ≥ 0` defaulting to 1.0, for every combo request accepted by the
schema. -/
theorem combo_schema_accepts_claimed_ranges_and_defaults
    (o : List (String × Json)) (h : objValid comboSpec o = true) :
    (∀ v, lookupField o "mode" = some v →
      ∃ s, v = .str s ∧ s ∈ ["top_combos", "with_item", "branch_pairs"]) ∧
    (∀ v, lookupField o "top_n" = some v →
      ∃ m e, v = .num m e ∧ decIsInt m e = true ∧
        decLe 1 0 m e = true ∧ decLe m e 20 0 = true) ∧
    (∀ v, lookupField o "min_support" = some v →
      ∃ m e, v = .num m e ∧ decLe 0 0 m e = true ∧ decLe m e 1 0 = true) ∧
    (∀ v, lookupField o "min_confidence" = some v →
      ∃ m e, v = .num m e ∧ decLe 0 0 m e = true ∧ decLe m e 1 0 = true) ∧
    (∀ v, lookupField o "min_lift" = some v →
      ∃ m e, v = .num m e ∧ decLe 0 0 m e = true) ∧
    defaultOf comboSpec "mode" = some (.str "top_combos") ∧
    defaultOf comboSpec "top_n" = some (.num 5 0) ∧
    defaultOf comboSpec "min_support" = some (.num 2 2) ∧
    defaultOf comboSpec "min_confidence" = some (.num 3 1) ∧
    defaultOf comboSpec "min_lift" = some (.num 10 1) := by
  refine ⟨?_, ?_, ?_, ?_, ?_, rfl, rfl, rfl, rfl, rfl⟩
  · intro v hv
    have hmem : comboModeProp ∈ comboSpec.properties := by simp [comboSpec]
    have hvv := objValid_field h hmem (show lookupField o comboModeProp.name = some v from hv)
    cases v <;> simp [validValue, comboModeProp] at hvv
    next s => exact ⟨s, rfl, by simpa using hvv⟩
  · intro v hv
    have hmem : comboTopNProp ∈ comboSpec.properties := by simp [comboSpec]
    have hvv := objValid_field h hmem (show lookupField o comboTopNProp.name = some v from hv)
    cases v <;> simp [validValue, comboTopNProp] at hvv
    next m e => exact ⟨m, e, rfl, hvv.1.1, hvv.1.2, hvv.2⟩
  · intro v hv
    have hmem : comboMinSupportProp ∈ comboSpec.properties := by simp [comboSpec]
    have hvv := objValid_field h hmem
      (show lookupField o comboMinSupportProp.name = some v from hv)
    cases v <;> simp [validValue, comboMinSupportProp] at hvv
    next m e => exact ⟨m, e, rfl, hvv.1, hvv.2⟩
  · intro v hv
    have hmem : comboMinConfidenceProp ∈ comboSpec.properties := by simp [comboSpec]
    have hvv := objValid_field h hmem
      (show lookupField o comboMinConfidenceProp.name = some v from hv)
    cases v <;> simp [validValue, comboMinConfidenceProp] at hvv
    next m e => exact ⟨m, e, rfl, hvv.1, hvv.2⟩
  · intro v hv
    have hmem : comboMinLiftProp ∈ comboSpec.properties := by simp [comboSpec]
    have hvv := objValid_field h hmem
      (show lookupField o comboMinLiftProp.name = some v from hv)
    cases v <;> simp [validValue, comboMinLiftProp] at hvv
    next m e => exact ⟨m, e, rfl, hvv⟩

/-- Witness for the combo-schema theorem at a concrete accepted request. -/
theorem combo_schema_accepts_claimed_ranges_and_defaults_witness :
    ∃ s, Json.str "with_item" = Json.str s ∧
      s ∈ ["top_combos", "with_item", "branch_pairs"] :=
  (combo_schema_accepts_claimed_ranges_and_defaults comboSampleRequest
    (by decide)).1 (Json.str "with_item") rfl

/-- C4: every demand-forecast request accepted by the schema has the
`branch` field present (it is required), and `horizon_days`, when present,
is an integer in [1, 31]; the schema's recorded default for
`horizon_days` is 7. -/
theorem forecast_schema_requires_branch_and_bounds_horizon
    (o : List (String × Json)) (h : objValid forecastSpec o = true) :
    (lookupField o "branch").isSome = true ∧
    (∀ v, lookupField o "horizon_days" = some v →
      ∃ m e, v = .num m e ∧ decIsInt m e = true ∧
        decLe 1 0 m e = true ∧ decLe m e 31 0 = true) ∧
    "branch" ∈ forecastSpec.required ∧
    defaultOf forecastSpec "horizon_days" = some (.num 7 0) ∧
    objValid forecastSpec [] = false := by
  refine ⟨?_, ?_, by simp [forecastSpec], rfl, by decide⟩
  · exact objValid_required h (by simp [forecastSpec])
  · intro v hv
    have hmem : forecastHorizonProp ∈ forecastSpec.properties := by simp [forecastSpec]
    have hvv := objValid_field h hmem
      (show lookupField o forecastHorizonProp.name = some v from hv)
    cases v <;> simp [validValue, forecastHorizonProp] at hvv
    next m e => exact ⟨m, e, rfl, hvv.1.1, hvv.1.2, hvv.2⟩

/-- Witness for the forecast-schema theorem at a concrete accepted request. -/
theorem forecast_schema_requires_branch_and_bounds_horizon_witness :
    (lookupField [(("branch" : String), Json.str "Ashrafieh"),
      (("horizon_days" : String), Json.num 7 0)] "branch").isSome = true :=
  (forecast_schema_requires_branch_and_bounds_horizon
    [("branch", .str "Ashrafieh"), ("horizon_days", .num 7 0)] (by decide)).1

/-- C2 counterexample: `"beverage"` is an admissible
`include_categories` value of the combo schema, yet it is not a category
of the Category Taxonomy (whose categories are the beverage subtypes
coffee, milkshake and other-beverage, plus sweet, savory and other), so
the admissible values are not a subset of the taxonomy's category set. -/
theorem include_categories_not_subset_of_taxonomy :
    "beverage" ∈ includeCategoriesEnum ∧ "beverage" ∉ taxonomyCategories := by
  decide

/-- C2 amended: the admissible `include_categories` values are exactly
beverage, sweet, savory and other; of these, sweet, savory and other are
taxonomy categories, and `"beverage"` is the only admissible value that
is not itself a taxonomy category (it names the supertype covering the
three beverage subtypes). -/
theorem include_categories_vs_taxonomy :
    includeCategoriesEnum = ["beverage", "sweet", "savory", "other"] ∧
    includeCategoriesEnum.filter
      (fun c => !(taxonomyCategories.contains c)) = ["beverage"] ∧
    includeCategoriesEnum.filter
      (fun c => taxonomyCategories.contains c) = ["sweet", "savory", "other"] := by
  decide

/-- C3 counterexample: the request-body type for
`/tools/estimate_staffing` in `frontend/src/types/api.d.ts` is an
interface issuing a staffing request whose fields are `branch`, `shift?`
and `target_date?` — it lacks `target_period` and `shift_name`, so not
every interface's staffing request consists of the claimed field set. -/
theorem staffing_fields_differ_in_generated_placeholder :
    apiDtsStaffingFields ≠ claimedStaffingFields ∧
    "target_period" ∉ apiDtsStaffingFields.map (fun f => f.name) ∧
    "shift_name" ∉ apiDtsStaffingFields.map (fun f => f.name) ∧
    "target_period" ∈ claimedStaffingFields.map (fun f => f.name) := by
  decide

/-- C3 amended: the plugin's staffing schema and the frontend
`estimateStaffing` interface both consist of exactly the claimed fields —
branch (required), target_period (optional, matching `^\d{4}-\d{2}$`),
day_of_week (optional, Mon..Sun), shift_name (required, one of
morning/afternoon/evening/night), shift_hours (default 8.0), buffer_pct
(in [0, 1], default 0.15) and demand_override (optional, minimum 0) —
while the generated-placeholder type in `api.d.ts` instead declares
`branch`, `shift?` and `target_date?`. -/
theorem staffing_request_fields_amended :
    schemaFieldSigs staffingSpec = claimedStaffingFields ∧
    estimateStaffingBodyFields = claimedStaffingFields ∧
    apiDtsStaffingFields = [⟨"branch", true⟩, ⟨"shift", false⟩, ⟨"target_date", false⟩] ∧
    enumOf staffingSpec "shift_name" =
      some ["morning", "afternoon", "evening", "night"] ∧
    enumOf staffingSpec "day_of_week" =
      some ["Mon", "Tue", "Wed", "Thu", "Fri", "Sat", "Sun"] ∧
    patternOf staffingSpec "target_period" = some .yyyyMm ∧
    matchesPattern .yyyyMm "2024-07" = true ∧
    matchesPattern .yyyyMm "July 2024" = false ∧
    defaultOf staffingSpec "shift_hours" = some (.num 80 1) ∧
    decLe 80 1 8 0 = true ∧ decLe 8 0 80 1 = true ∧
    defaultOf staffingSpec "buffer_pct" = some (.num 15 2) ∧
    minimumOf staffingSpec "buffer_pct" = some (0, 0) ∧
    maximumOf staffingSpec "buffer_pct" = some (1, 0) ∧
    minimumOf staffingSpec "demand_override" = some (0, 0) := by
  refine ⟨by decide, by decide, by decide, rfl, rfl, rfl, by decide, by decide,
    rfl, by decide, by decide, rfl, rfl, rfl, rfl⟩

theorem dropWhile_head_not {p : Char → Bool} :
    ∀ l : List Char, ∀ c, (l.dropWhile p).head? = some c → p c = false := by
  intro l
  induction l with
  | nil => intro c h; simp [List.dropWhile] at h
  | cons a t ih =>
    intro c h
    by_cases hp : p a
    · rw [List.dropWhile_cons_of_pos hp] at h; exact ih c h
    · rw [List.dropWhile_cons_of_neg hp] at h
      simp at h
      subst h
      simpa using hp

theorem stripTrailingSlashes_no_slash (s : String) :
    endsWithSlash (stripTrailingSlashes s) = false := by
  unfold endsWithSlash stripTrailingSlashes
  simp only [List.getLast?_reverse]
  cases hh : (s.data.reverse.dropWhile (fun c => c == '/')).head? with
  | none => rfl
  | some c => exact dropWhile_head_not _ c hh

theorem dropWhile_idem {p : Char → Bool} (l : List Char) :
    (l.dropWhile p).dropWhile p = l.dropWhile p := by
  induction l with
  | nil => rfl
  | cons a t ih =>
    by_cases hp : p a
    · rw [List.dropWhile_cons_of_pos hp]; exact ih
    · rw [List.dropWhile_cons_of_neg hp, List.dropWhile_cons_of_neg hp]

theorem stripTrailingSlashes_idem (s : String) :
    stripTrailingSlashes (stripTrailingSlashes s) = stripTrailingSlashes s := by
  unfold stripTrailingSlashes
  simp [dropWhile_idem]

theorem pushIfAbsent_ne_nil (acc : List String) (v : String) :
    pushIfAbsent acc v ≠ [] := by
  unfold pushIfAbsent
  split
  · next h =>
    intro hn
    subst hn
    simp at h
  · simp

theorem mem_pushIfAbsent_of_mem {acc : List String} {x : String} (v : String)
    (hx : x ∈ acc) : x ∈ pushIfAbsent acc v := by
  unfold pushIfAbsent
  split
  · exact hx
  · exact List.mem_append_left _ hx

theorem strip_mem_pushIfAbsent (acc : List String) (v : String) :
    stripTrailingSlashes v ∈ pushIfAbsent acc v := by
  unfold pushIfAbsent
  split
  · next h => simpa using h
  · simp

theorem mem_pushIfAbsent {acc : List String} {x v : String}
    (hx : x ∈ pushIfAbsent acc v) : x ∈ acc ∨ x = stripTrailingSlashes v := by
  unfold pushIfAbsent at hx
  split at hx
  · exact Or.inl hx
  · rcases List.mem_append.mp hx with h | h
    · exact Or.inl h
    · simp at h; exact Or.inr h

theorem pushIfAbsent_nodup {acc : List String} (v : String) (h : acc.Nodup) :
    (pushIfAbsent acc v).Nodup := by
  unfold pushIfAbsent
  split
  · exact h
  · next hc =>
    simp only [List.contains_eq_any_beq] at hc
    refine List.Nodup.append h (List.nodup_singleton _) ?_
    intro a ha hb
    simp at hb
    subst hb
    exact hc (by simpa using ha)

theorem pushIfAbsent_length (acc : List String) (v : String) :
    (pushIfAbsent acc v).length ≤ acc.length + 1 := by
  unfold pushIfAbsent
  split
  · omega
  · simp

theorem pushIfAbsent_head {acc : List String} (v : String) (h : acc ≠ []) :
    (pushIfAbsent acc v).head? = acc.head? := by
  unfold pushIfAbsent
  split
  · rfl
  · cases acc with
    | nil => exact absurd rfl h
    | cons a t => simp

theorem foldl_pushIfAbsent_mem_acc :
    ∀ (l : List String) (acc : List String) (x : String), x ∈ acc →
      x ∈ l.foldl pushIfAbsent acc := by
  intro l
  induction l with
  | nil => intro acc x hx; exact hx
  | cons a t ih =>
    intro acc x hx
    exact ih _ x (mem_pushIfAbsent_of_mem a hx)

theorem foldl_pushIfAbsent_mem :
    ∀ (l : List String) (acc : List String) (v : String), v ∈ l →
      stripTrailingSlashes v ∈ l.foldl pushIfAbsent acc := by
  intro l
  induction l with
  | nil => intro acc v hv; simp at hv
  | cons a t ih =>
    intro acc v hv
    rcases List.mem_cons.mp hv with h | h
    · subst h
      exact foldl_pushIfAbsent_mem_acc t _ _ (strip_mem_pushIfAbsent acc v)
    · exact ih _ v h

theorem foldl_pushIfAbsent_sources :
    ∀ (l : List String) (acc : List String) (x : String),
      x ∈ l.foldl pushIfAbsent acc → x ∈ acc ∨ ∃ v ∈ l, x = stripTrailingSlashes v := by
  intro l
  induction l with
  | nil => intro acc x hx; exact Or.inl hx
  | cons a t ih =>
    intro acc x hx
    rcases ih _ x hx with h | h
    · rcases mem_pushIfAbsent h with h2 | h2
      · exact Or.inl h2
      · exact Or.inr ⟨a, List.mem_cons_self a t, h2⟩
    · rcases h with ⟨v, hv, he⟩
      exact Or.inr ⟨v, List.mem_cons_of_mem a hv, he⟩

theorem foldl_pushIfAbsent_nodup :
    ∀ (l : List String) (acc : List String), acc.Nodup →
      (l.foldl pushIfAbsent acc).Nodup := by
  intro l
  induction l with
  | nil => intro acc h; exact h
  | cons a t ih => intro acc h; exact ih _ (pushIfAbsent_nodup a h)

theorem foldl_pushIfAbsent_length :
    ∀ (l : List String) (acc : List String),
      (l.foldl pushIfAbsent acc).length ≤ acc.length + l.length := by
  intro l
  induction l with
  | nil => intro acc; simp
  | cons a t ih =>
    intro acc
    have h1 := ih (pushIfAbsent acc a)
    have h2 := pushIfAbsent_length acc a
    simp only [List.foldl_cons, List.length_cons]
    omega

theorem foldl_pushIfAbsent_head :
    ∀ (l : List String) (acc : List String), acc ≠ [] →
      (l.foldl pushIfAbsent acc).head? = acc.head? := by
  intro l
  induction l with
  | nil => intro acc _; rfl
  | cons a t ih =>
    intro acc h
    rw [List.foldl_cons, ih _ (pushIfAbsent_ne_nil acc a), pushIfAbsent_head a h]

/-- C10: for every value of the `CONUT_API_URL` environment variable,
`buildApiUrlCandidates` returns a duplicate-free list of at most four
base URLs in which no element ends with a slash, whose first element is
the configured URL (or the default `http://127.0.0.1:8000` when unset)
with trailing slashes removed, and which always contains
`http://127.0.0.1:8000`. -/
theorem buildApiUrlCandidates_props (env : Option String) :
    (buildApiUrlCandidates env).Nodup ∧
    (buildApiUrlCandidates env).length ≤ 4 ∧
    (∀ c ∈ buildApiUrlCandidates env, endsWithSlash c = false) ∧
    (buildApiUrlCandidates env).head? = some (DEFAULT_API_URL env) ∧
    "http://127.0.0.1:8000" ∈ buildApiUrlCandidates env := by
  refine ⟨?_, ?_, ?_, ?_, ?_⟩
  · exact foldl_pushIfAbsent_nodup _ [] List.nodup_nil
  · have := foldl_pushIfAbsent_length [DEFAULT_API_URL env, "http://127.0.0.1:8000",
      "http://localhost:8000", "http://host.docker.internal:8000"] []
    simpa [buildApiUrlCandidates] using this
  · intro c hc
    rcases foldl_pushIfAbsent_sources _ [] c hc with h | ⟨v, _, he⟩
    · simp at h
    · rw [he]; exact stripTrailingSlashes_no_slash v
  · show (List.foldl pushIfAbsent [] _).head? = _
    rw [List.foldl_cons]
    have h1 : pushIfAbsent [] (DEFAULT_API_URL env) = [DEFAULT_API_URL env] := by
      unfold pushIfAbsent
      rw [if_neg (by simp)]
      simp [DEFAULT_API_URL, stripTrailingSlashes_idem]
    rw [h1, foldl_pushIfAbsent_head _ _ (by simp)]
    rfl
  · have : stripTrailingSlashes "http://127.0.0.1:8000" ∈ buildApiUrlCandidates env := by
      apply foldl_pushIfAbsent_mem
      simp
    simpa using this

/-- Witness for the candidate-list theorem: a configured URL with
trailing slashes, normalized, is a candidate and ends in no slash. -/
theorem buildApiUrlCandidates_props_witness :
    endsWithSlash "http://api.example.com" = false :=
  (buildApiUrlCandidates_props (some "http://api.example.com///")).2.2.1
    "http://api.example.com" (by decide)

/-- C6: in the growth-strategy schema, `branch` is optional (not in
`required`; an object omitting it is accepted) and `focus_categories`
defaults to exactly the two-element list `["coffee", "milkshake"]`. -/
theorem growth_schema_branch_optional_and_focus_default :
    growthSpec.required = [] ∧
    growthSpec.properties.map (fun ps => ps.name) = ["branch", "focus_categories"] ∧
    objValid growthSpec [] = true ∧
    objValid growthSpec [("focus_categories", .arr [.str "coffee"])] = true ∧
    defaultOf growthSpec "focus_categories" =
      some (.arr [.str "coffee", .str "milkshake"]) :=
  ⟨rfl, rfl, by decide, by decide, rfl⟩

theorem digitVal_digitChar {k : Nat} (h : k < 10) : digitVal (digitChar k) = k := by
  interval_cases k <;> decide

theorem isDigit_digitChar {k : Nat} (h : k < 10) : (digitChar k).isDigit = true := by
  interval_cases k <;> decide

theorem natToDigitsAux_ne_nil :
    ∀ fuel n, n < fuel → natToDigitsAux fuel n ≠ [] := by
  intro fuel
  induction fuel with
  | zero => intro n h; omega
  | succ f _ =>
    intro n _
    unfold natToDigitsAux
    split
    · simp
    · simp

theorem natToDigits_ne_nil (n : Nat) : natToDigits n ≠ [] :=
  natToDigitsAux_ne_nil (n + 1) n (by omega)

theorem natToDigitsAux_all_digits :
    ∀ fuel n, n < fuel → ∀ c ∈ natToDigitsAux fuel n, c.isDigit = true := by
  intro fuel
  induction fuel with
  | zero => intro n h; omega
  | succ f ih =>
    intro n hn c hc
    unfold natToDigitsAux at hc
    split at hc
    · next h =>
      simp at hc
      subst hc
      exact isDigit_digitChar h
    · next h =>
      rcases List.mem_append.mp hc with h2 | h2
      · have hdiv : n / 10 < n := Nat.div_lt_self (by omega) (by omega)
        exact ih (n / 10) (by omega) c h2
      · simp at h2
        subst h2
        exact isDigit_digitChar (Nat.mod_lt _ (by omega))

theorem natToDigits_all_digits : ∀ n, ∀ c ∈ natToDigits n, c.isDigit = true :=
  fun n => natToDigitsAux_all_digits (n + 1) n (by omega)

theorem digitsToNat_from (a : Nat) (l : List Char) :
    l.foldl (fun a c => a * 10 + digitVal c) a =
      a * 10 ^ l.length + digitsToNat l := by
  induction l generalizing a with
  | nil => simp [digitsToNat]
  | cons c t ih =>
    simp only [List.foldl_cons, List.length_cons, digitsToNat]
    rw [ih (a * 10 + digitVal c), ih (0 * 10 + digitVal c)]
    ring

theorem digitsToNat_append (l1 l2 : List Char) :
    digitsToNat (l1 ++ l2) = digitsToNat l1 * 10 ^ l2.length + digitsToNat l2 := by
  unfold digitsToNat
  rw [List.foldl_append, digitsToNat_from]
  rfl

theorem digitsToNat_natToDigitsAux :
    ∀ fuel n, n < fuel → digitsToNat (natToDigitsAux fuel n) = n := by
  intro fuel
  induction fuel with
  | zero => intro n h; omega
  | succ f ih =>
    intro n hn
    unfold natToDigitsAux
    split
    · next h => simp [digitsToNat, digitVal_digitChar h]
    · next h =>
      have hdiv : n / 10 < n := Nat.div_lt_self (by omega) (by omega)
      rw [digitsToNat_append, ih (n / 10) (by omega)]
      simp [digitsToNat, digitVal_digitChar (Nat.mod_lt n (show 0 < 10 by omega))]
      omega

theorem digitsToNat_natToDigits : ∀ n, digitsToNat (natToDigits n) = n :=
  fun n => digitsToNat_natToDigitsAux (n + 1) n (by omega)

theorem digitsToNat_replicate_zero (k : Nat) (l : List Char) :
    digitsToNat (List.replicate k '0' ++ l) = digitsToNat l := by
  induction k with
  | zero => simp
  | succ k ih =>
    rw [List.replicate_succ, List.cons_append]
    show digitsToNat (('0' :: (List.replicate k '0' ++ l) : List Char)) = _
    unfold digitsToNat at *
    simp only [List.foldl_cons]
    have : (0 : Nat) * 10 + digitVal '0' = 0 := by decide
    rw [this]
    exact ih

theorem takeWhile_all_append {p : Char → Bool} {ds : List Char} (rest : List Char)
    (h : ∀ c ∈ ds, p c = true) :
    (ds ++ rest).takeWhile p = ds ++ rest.takeWhile p := by
  induction ds with
  | nil => simp
  | cons c t ih =>
    rw [List.cons_append, List.takeWhile_cons_of_pos (h c (List.mem_cons_self c t))]
    rw [ih (fun c hc => h c (List.mem_cons_of_mem _ hc))]
    simp

theorem dropWhile_all_append {p : Char → Bool} {ds : List Char} (rest : List Char)
    (h : ∀ c ∈ ds, p c = true) :
    (ds ++ rest).dropWhile p = rest.dropWhile p := by
  induction ds with
  | nil => simp
  | cons c t ih =>
    rw [List.cons_append, List.dropWhile_cons_of_pos (h c (List.mem_cons_self c t))]
    exact ih (fun c hc => h c (List.mem_cons_of_mem _ hc))

theorem takeWhile_stop {p : Char → Bool} {rest : List Char}
    (h : ∀ c, rest.head? = some c → p c = false) :
    rest.takeWhile p = [] ∧ rest.dropWhile p = rest := by
  cases rest with
  | nil => simp
  | cons c t =>
    have := h c rfl
    exact ⟨List.takeWhile_cons_of_neg (by simp [this]),
      List.dropWhile_cons_of_neg (by simp [this])⟩

theorem numSafe_not_digit {rest : List Char} (h : numSafe rest = true) :
    ∀ c, rest.head? = some c → c.isDigit = false := by
  intro c hc
  cases rest with
  | nil => simp at hc
  | cons a t =>
    simp at hc
    subst hc
    unfold numSafe at h
    simp at h
    exact h.1

theorem numSafe_not_dot {rest : List Char} (h : numSafe rest = true) :
    ∀ c, rest.head? = some c → c ≠ '.' := by
  intro c hc
  cases rest with
  | nil => simp at hc
  | cons a t =>
    simp at hc
    subst hc
    unfold numSafe at h
    simp at h
    exact h.2

theorem parseNumCore_int (neg : Bool) (a : Nat) (rest : List Char)
    (hrest : numSafe rest = true) :
    parseNumCore neg (natToDigits a ++ rest) =
      some (.num (if neg then -(a : Int) else (a : Int)) 0, rest) := by
  obtain ⟨ht, hd⟩ := takeWhile_stop (p := Char.isDigit) (numSafe_not_digit hrest)
  have htake : (natToDigits a ++ rest).takeWhile Char.isDigit = natToDigits a := by
    rw [takeWhile_all_append rest (natToDigits_all_digits a), ht, List.append_nil]
  have hdrop : (natToDigits a ++ rest).dropWhile Char.isDigit = rest := by
    rw [dropWhile_all_append rest (natToDigits_all_digits a), hd]
  unfold parseNumCore
  rw [htake, hdrop, if_neg (by simp [natToDigits_ne_nil a])]
  split
  · next heq =>
    exfalso
    simp [numSafe] at hrest
  · rw [digitsToNat_natToDigits]

theorem parseNumCore_frac (neg : Bool) (intDs fracDs : List Char) (rest : List Char)
    (hint : ∀ c ∈ intDs, c.isDigit = true) (hfrac : ∀ c ∈ fracDs, c.isDigit = true)
    (hine : intDs ≠ []) (hfne : fracDs ≠ []) (hrest : numSafe rest = true) :
    parseNumCore neg (intDs ++ '.' :: (fracDs ++ rest)) =
      some (.num
        (if neg then -(digitsToNat (intDs ++ fracDs) : Int)
         else (digitsToNat (intDs ++ fracDs) : Int)) fracDs.length, rest) := by
  obtain ⟨ht, hd⟩ := takeWhile_stop (p := Char.isDigit) (numSafe_not_digit hrest)
  have htake1 : (intDs ++ '.' :: (fracDs ++ rest)).takeWhile Char.isDigit = intDs := by
    rw [takeWhile_all_append _ hint, List.takeWhile_cons_of_neg (by decide), List.append_nil]
  have hdrop1 : (intDs ++ '.' :: (fracDs ++ rest)).dropWhile Char.isDigit =
      '.' :: (fracDs ++ rest) := by
    rw [dropWhile_all_append _ hint, List.dropWhile_cons_of_neg (by decide)]
  have htake2 : (fracDs ++ rest).takeWhile Char.isDigit = fracDs := by
    rw [takeWhile_all_append rest hfrac, ht, List.append_nil]
  have hdrop2 : (fracDs ++ rest).dropWhile Char.isDigit = rest := by
    rw [dropWhile_all_append rest hfrac, hd]
  unfold parseNumCore
  rw [htake1, if_neg (by simp [hine])]
  rw [hdrop1]
  split
  · next r2 heq =>
    obtain rfl : r2 = fracDs ++ rest := by
      cases heq
      rfl
    rw [htake2, hdrop2, if_neg (by simp [hfne])]
  · next hne =>
    exact absurd rfl (hne (fracDs ++ rest))

theorem isDigit_ne_dash {c : Char} (h : c.isDigit = true) : c ≠ '-' := by
  intro heq
  subst heq
  simp at h

theorem parseNum_cons_digit {c : Char} {t : List Char} (h : c ≠ '-') :
    parseNum (c :: t) = parseNumCore false (c :: t) := by
  simp only [parseNum]
  rw [if_neg h]

theorem parseNum_dash (t : List Char) :
    parseNum ('-' :: t) = parseNumCore true t := by
  simp [parseNum]

theorem parseNumCore_int_neg (a : Nat) (rest : List Char) (hrest : numSafe rest = true) :
    parseNumCore true (natToDigits a ++ rest) = some (.num (-(a : Int)) 0, rest) := by
  simpa using parseNumCore_int true a rest hrest

theorem parseNumCore_int_pos (a : Nat) (rest : List Char) (hrest : numSafe rest = true) :
    parseNumCore false (natToDigits a ++ rest) = some (.num (a : Int) 0, rest) := by
  simpa using parseNumCore_int false a rest hrest

theorem parseNumCore_frac_neg (intDs fracDs : List Char) (rest : List Char)
    (hint : ∀ c ∈ intDs, c.isDigit = true) (hfrac : ∀ c ∈ fracDs, c.isDigit = true)
    (hine : intDs ≠ []) (hfne : fracDs ≠ []) (hrest : numSafe rest = true) :
    parseNumCore true (intDs ++ '.' :: (fracDs ++ rest)) =
      some (.num (-(digitsToNat (intDs ++ fracDs) : Int)) fracDs.length, rest) := by
  simpa using parseNumCore_frac true intDs fracDs rest hint hfrac hine hfne hrest

theorem parseNumCore_frac_pos (intDs fracDs : List Char) (rest : List Char)
    (hint : ∀ c ∈ intDs, c.isDigit = true) (hfrac : ∀ c ∈ fracDs, c.isDigit = true)
    (hine : intDs ≠ []) (hfne : fracDs ≠ []) (hrest : numSafe rest = true) :
    parseNumCore false (intDs ++ '.' :: (fracDs ++ rest)) =
      some (.num ((digitsToNat (intDs ++ fracDs) : Int)) fracDs.length, rest) := by
  simpa using parseNumCore_frac false intDs fracDs rest hint hfrac hine hfne hrest

theorem parseNum_printNum (m : Int) (e : Nat) (rest : List Char)
    (hrest : numSafe rest = true) :
    parseNum (printNum m e ++ rest) = some (.num m e, rest) := by
  by_cases he : e = 0
  · subst he
    by_cases hm : m < 0
    · rw [printNum, if_pos hm, if_pos rfl]
      show parseNum ('-' :: (natToDigits m.natAbs ++ rest)) = _
      rw [parseNum_dash, parseNumCore_int_neg m.natAbs rest hrest]
      have hv : -(m.natAbs : Int) = m := by omega
      rw [hv]
    · rw [printNum, if_neg hm, if_pos rfl, List.nil_append]
      obtain ⟨c, t, hct⟩ : ∃ c t, natToDigits m.natAbs = c :: t := by
        cases hn : natToDigits m.natAbs with
        | nil => exact absurd hn (natToDigits_ne_nil _)
        | cons c t => exact ⟨c, t, rfl⟩
      have hcd : c.isDigit = true :=
        natToDigits_all_digits m.natAbs c (by rw [hct]; exact List.mem_cons_self c t)
      rw [hct, List.cons_append, parseNum_cons_digit (isDigit_ne_dash hcd),
        ← List.cons_append, ← hct, parseNumCore_int_pos m.natAbs rest hrest]
      have hv : (m.natAbs : Int) = m := by omega
      rw [hv]
  · set A := natToDigits m.natAbs with hA
    set ds := List.replicate (e + 1 - A.length) '0' ++ A with hds
    have hdsd : ∀ c ∈ ds, c.isDigit = true := by
      intro c hc
      rcases List.mem_append.mp hc with h | h
      · rw [List.eq_of_mem_replicate h]; decide
      · exact natToDigits_all_digits m.natAbs c h
    have hA1 : 1 ≤ A.length := by
      cases hn : A with
      | nil => exact absurd hn (natToDigits_ne_nil _)
      | cons c t => simp
    have hlen : e + 1 ≤ ds.length := by
      have : ds.length = (e + 1 - A.length) + A.length := by simp [hds]
      omega
    have hint : ∀ c ∈ ds.take (ds.length - e), c.isDigit = true :=
      fun c hc => hdsd c (List.mem_of_mem_take hc)
    have hfrac : ∀ c ∈ ds.drop (ds.length - e), c.isDigit = true :=
      fun c hc => hdsd c (List.mem_of_mem_drop hc)
    have hilen : (ds.take (ds.length - e)).length = ds.length - e := by
      rw [List.length_take]
      omega
    have hineq : ds.take (ds.length - e) ≠ [] := by
      intro hn
      rw [hn] at hilen
      simp at hilen
      omega
    have hflen : (ds.drop (ds.length - e)).length = e := by
      rw [List.length_drop]
      omega
    have hfne : ds.drop (ds.length - e) ≠ [] := by
      intro hn
      rw [hn] at hflen
      simp at hflen
      omega
    have hval : digitsToNat (ds.take (ds.length - e) ++ ds.drop (ds.length - e)) = m.natAbs := by
      rw [List.take_append_drop, hds, digitsToNat_replicate_zero, hA, digitsToNat_natToDigits]
    by_cases hm : m < 0
    · rw [printNum, if_pos hm, if_neg he]
      show parseNum ('-' ::
        ((ds.take (ds.length - e) ++ '.' :: ds.drop (ds.length - e)) ++ rest)) = _
      rw [parseNum_dash, List.append_assoc, List.cons_append]
      rw [parseNumCore_frac_neg _ _ rest hint hfrac hineq hfne hrest]
      rw [hval, hflen]
      have hv : -(m.natAbs : Int) = m := by omega
      rw [hv]
    · rw [printNum, if_neg hm, if_neg he, List.nil_append]
      obtain ⟨c, t, hct⟩ : ∃ c t, ds.take (ds.length - e) = c :: t := by
        cases hn : ds.take (ds.length - e) with
        | nil => exact absurd hn hineq
        | cons c t => exact ⟨c, t, rfl⟩
      have hcd : c.isDigit = true :=
        hint c (by rw [hct]; exact List.mem_cons_self c t)
      show parseNum ((ds.take (ds.length - e) ++ '.' :: ds.drop (ds.length - e)) ++ rest) = _
      rw [List.append_assoc, List.cons_append]
      rw [hct, List.cons_append, parseNum_cons_digit (isDigit_ne_dash hcd),
        ← List.cons_append, ← hct]
      rw [parseNumCore_frac_pos _ _ rest hint hfrac hineq hfne hrest]
      rw [hval, hflen]
      have hv : (m.natAbs : Int) = m := by omega
      rw [hv]

theorem char_eq_of_toNat_eq {c d : Char} (h : c.toNat = d.toNat) : c = d := by
  have hc := Char.ofNat_toNat c
  rw [h, Char.ofNat_toNat] at hc
  exact hc.symm

theorem hexVal_hexDigitChar {k : Nat} (h : k < 16) : hexVal (hexDigitChar k) = k := by
  interval_cases k <;> decide

theorem isHex_hexDigitChar {k : Nat} (h : k < 16) : isHexDigitCh (hexDigitChar k) = true := by
  interval_cases k <;> decide

theorem psb_quote (X : List Char) : parseStringBody ('"' :: X) = some ([], X) := by
  unfold parseStringBody
  norm_num

theorem psb_plain {c : Char} (X : List Char) (h1 : ¬ c = '"') (h2 : ¬ c = '\\') :
    parseStringBody (c :: X) =
      match parseStringBody X with
      | some (s, r) => some (c :: s, r)
      | none => none := by
  conv_lhs => rw [parseStringBody.eq_def]
  dsimp only
  rw [if_neg h1, if_neg h2]

theorem psb_esc_quote (X : List Char) :
    parseStringBody ('\\' :: '"' :: X) =
      match parseStringBody X with
      | some (s, r) => some ('"' :: s, r)
      | none => none := rfl

theorem psb_esc_bs (X : List Char) :
    parseStringBody ('\\' :: '\\' :: X) =
      match parseStringBody X with
      | some (s, r) => some ('\\' :: s, r)
      | none => none := rfl

theorem psb_esc_b (X : List Char) :
    parseStringBody ('\\' :: 'b' :: X) =
      match parseStringBody X with
      | some (s, r) => some (Char.ofNat 8 :: s, r)
      | none => none := rfl

theorem psb_esc_t (X : List Char) :
    parseStringBody ('\\' :: 't' :: X) =
      match parseStringBody X with
      | some (s, r) => some (Char.ofNat 9 :: s, r)
      | none => none := rfl

theorem psb_esc_n (X : List Char) :
    parseStringBody ('\\' :: 'n' :: X) =
      match parseStringBody X with
      | some (s, r) => some (Char.ofNat 10 :: s, r)
      | none => none := rfl

theorem psb_esc_f (X : List Char) :
    parseStringBody ('\\' :: 'f' :: X) =
      match parseStringBody X with
      | some (s, r) => some (Char.ofNat 12 :: s, r)
      | none => none := rfl

theorem psb_esc_r (X : List Char) :
    parseStringBody ('\\' :: 'r' :: X) =
      match parseStringBody X with
      | some (s, r) => some (Char.ofNat 13 :: s, r)
      | none => none := rfl

theorem psb_esc_u (a b : Char) (X : List Char) :
    parseStringBody ('\\' :: 'u' :: '0' :: '0' :: a :: b :: X) =
      if isHexDigitCh '0' && isHexDigitCh '0' && isHexDigitCh a && isHexDigitCh b then
        match parseStringBody X with
        | some (s, r) =>
          some (Char.ofNat
            (hexVal '0' * 4096 + hexVal '0' * 256 + hexVal a * 16 + hexVal b) :: s, r)
        | none => none
      else none := rfl

theorem parseStringBody_print (cs : List Char) (rest : List Char) :
    parseStringBody (printStringBody cs ++ '"' :: rest) = some (cs, rest) := by
  induction cs with
  | nil =>
    show parseStringBody ('"' :: rest) = some ([], rest)
    exact psb_quote rest
  | cons c t ih =>
    have hps : printStringBody (c :: t) = escChar c ++ printStringBody t := by
      simp [printStringBody]
    rw [hps, List.append_assoc]
    by_cases h1 : c = '"'
    · subst h1
      rw [show escChar '"' = ['\\', '"'] from by decide]
      rw [List.cons_append, List.cons_append, List.nil_append, psb_esc_quote, ih]
    · by_cases h2 : c = '\\'
      · subst h2
        rw [show escChar '\\' = ['\\', '\\'] from by decide]
        rw [List.cons_append, List.cons_append, List.nil_append, psb_esc_bs, ih]
      · by_cases h3 : c.toNat = 8
        · have hesc : escChar c = ['\\', 'b'] := by
            unfold escChar
            rw [if_neg h1, if_neg h2, if_pos h3]
          have hc : Char.ofNat 8 = c :=
            char_eq_of_toNat_eq (by rw [(by decide : (Char.ofNat 8).toNat = 8), h3])
          rw [hesc, List.cons_append, List.cons_append, List.nil_append, psb_esc_b, ih, hc]
        · by_cases h4 : c.toNat = 9
          · have hesc : escChar c = ['\\', 't'] := by
              unfold escChar
              rw [if_neg h1, if_neg h2, if_neg h3, if_pos h4]
            have hc : Char.ofNat 9 = c :=
              char_eq_of_toNat_eq (by rw [(by decide : (Char.ofNat 9).toNat = 9), h4])
            rw [hesc, List.cons_append, List.cons_append, List.nil_append, psb_esc_t, ih, hc]
          · by_cases h5 : c.toNat = 10
            · have hesc : escChar c = ['\\', 'n'] := by
                unfold escChar
                rw [if_neg h1, if_neg h2, if_neg h3, if_neg h4, if_pos h5]
              have hc : Char.ofNat 10 = c :=
                char_eq_of_toNat_eq (by rw [(by decide : (Char.ofNat 10).toNat = 10), h5])
              rw [hesc, List.cons_append, List.cons_append, List.nil_append, psb_esc_n, ih, hc]
            · by_cases h6 : c.toNat = 12
              · have hesc : escChar c = ['\\', 'f'] := by
                  unfold escChar
                  rw [if_neg h1, if_neg h2, if_neg h3, if_neg h4, if_neg h5, if_pos h6]
                have hc : Char.ofNat 12 = c :=
                  char_eq_of_toNat_eq (by rw [(by decide : (Char.ofNat 12).toNat = 12), h6])
                rw [hesc, List.cons_append, List.cons_append, List.nil_append, psb_esc_f,
                  ih, hc]
              · by_cases h7 : c.toNat = 13
                · have hesc : escChar c = ['\\', 'r'] := by
                    unfold escChar
                    rw [if_neg h1, if_neg h2, if_neg h3, if_neg h4, if_neg h5, if_neg h6,
                      if_pos h7]
                  have hc : Char.ofNat 13 = c :=
                    char_eq_of_toNat_eq (by rw [(by decide : (Char.ofNat 13).toNat = 13), h7])
                  rw [hesc, List.cons_append, List.cons_append, List.nil_append, psb_esc_r,
                    ih, hc]
                · by_cases h8 : c.toNat < 32
                  · have hesc : escChar c = ['\\', 'u', '0', '0',
                        hexDigitChar (c.toNat / 16), hexDigitChar (c.toNat % 16)] := by
                      unfold escChar
                      rw [if_neg h1, if_neg h2, if_neg h3, if_neg h4, if_neg h5, if_neg h6,
                        if_neg h7, if_pos h8]
                    have hhi : c.toNat / 16 < 16 := by omega
                    have hlo : c.toNat % 16 < 16 := by omega
                    rw [hesc]
                    simp only [List.cons_append, List.nil_append]
                    rw [psb_esc_u]
                    rw [if_pos (by
                      rw [isHex_hexDigitChar hhi, isHex_hexDigitChar hlo]
                      decide)]
                    rw [ih]
                    have hval : hexVal '0' * 4096 + hexVal '0' * 256 +
                        hexVal (hexDigitChar (c.toNat / 16)) * 16 +
                        hexVal (hexDigitChar (c.toNat % 16)) = c.toNat := by
                      rw [hexVal_hexDigitChar hhi, hexVal_hexDigitChar hlo]
                      have : hexVal '0' = 0 := by decide
                      rw [this]
                      omega
                    rw [hval, Char.ofNat_toNat]
                  · have hesc : escChar c = [c] := by
                      unfold escChar
                      rw [if_neg h1, if_neg h2, if_neg h3, if_neg h4, if_neg h5, if_neg h6,
                        if_neg h7, if_neg h8]
                    rw [hesc, List.cons_append, List.nil_append, psb_plain _ h1 h2, ih]

theorem pv_null (f : Nat) (X : List Char) :
    parseValue (f + 1) ('n' :: 'u' :: 'l' :: 'l' :: X) = some (.null, X) := rfl

theorem pv_str (f : Nat) (X : List Char) :
    parseValue (f + 1) ('"' :: X) =
      match parseStringBody X with
      | some (s, r) => some (.str (String.mk s), r)
      | none => none := rfl

theorem pv_true (f : Nat) (X : List Char) :
    parseValue (f + 1) ('t' :: 'r' :: 'u' :: 'e' :: X) = some (.bool true, X) := rfl

theorem pv_false (f : Nat) (X : List Char) :
    parseValue (f + 1) ('f' :: 'a' :: 'l' :: 's' :: 'e' :: X) = some (.bool false, X) := rfl

theorem pv_arr_nil (f : Nat) (X : List Char) :
    parseValue (f + 1) ('[' :: ']' :: X) = some (.arr [], X) := rfl

theorem pv_obj_nil (f : Nat) (X : List Char) :
    parseValue (f + 1) ('{' :: '}' :: X) = some (.obj [], X) := rfl

theorem pv_arr_step (f : Nat) (d : Char) (ds : List Char) :
    parseValue (f + 1) ('[' :: d :: ds) =
      if d = ']' then some (.arr [], ds)
      else
        match parseValue f (d :: ds) with
        | some (v, r) =>
          match parseArrRest f r with
          | some (vs, r2) => some (.arr (v :: vs), r2)
          | none => none
        | none => none := rfl

theorem pv_obj_step (f : Nat) (d : Char) (ds : List Char) :
    parseValue (f + 1) ('{' :: d :: ds) =
      if d = '}' then some (.obj [], ds)
      else
        match parseField f (d :: ds) with
        | some (kv, r) =>
          match parseObjRest f r with
          | some (kvs, r2) => some (.obj (kv :: kvs), r2)
          | none => none
        | none => none := rfl

theorem par_close (f : Nat) (X : List Char) :
    parseArrRest (f + 1) (']' :: X) = some ([], X) := rfl

theorem par_comma (f : Nat) (X : List Char) :
    parseArrRest (f + 1) (',' :: X) =
      match parseValue f X with
      | some (v, r) =>
        match parseArrRest f r with
        | some (vs, r2) => some (v :: vs, r2)
        | none => none
      | none => none := rfl

theorem pf_open (f : Nat) (X : List Char) :
    parseField (f + 1) ('"' :: X) =
      match parseStringBody X with
      | some (k, r) =>
        match r with
        | ':' :: r2 =>
          match parseValue f r2 with
          | some (v, r3) => some ((String.mk k, v), r3)
          | none => none
        | _ => none
      | none => none := rfl

theorem pobj_close (f : Nat) (X : List Char) :
    parseObjRest (f + 1) ('}' :: X) = some ([], X) := rfl

theorem pobj_comma (f : Nat) (X : List Char) :
    parseObjRest (f + 1) (',' :: X) =
      match parseField f X with
      | some (kv, r) =>
        match parseObjRest f r with
        | some (kvs, r2) => some (kv :: kvs, r2)
        | none => none
      | none => none := rfl

theorem isDigit_ne {c : Char} (h : c.isDigit = true) {d : Char}
    (hd : d.isDigit = false) : c ≠ d := by
  intro he
  subst he
  rw [h] at hd
  cases hd

theorem char_toNat_bounds_of_isDigit {c : Char} (h : c.isDigit = true) :
    48 ≤ c.toNat ∧ c.toNat ≤ 57 := by
  simp [Char.isDigit] at h
  obtain ⟨h1, h2⟩ := h
  exact ⟨h1, h2⟩

theorem digit_char_cases {c : Char} (h : c.isDigit = true) :
    c = '0' ∨ c = '1' ∨ c = '2' ∨ c = '3' ∨ c = '4' ∨
    c = '5' ∨ c = '6' ∨ c = '7' ∨ c = '8' ∨ c = '9' := by
  obtain ⟨h1, h2⟩ := char_toNat_bounds_of_isDigit h
  interval_cases hn : c.toNat
  · exact Or.inl (char_eq_of_toNat_eq (by rw [hn]; decide))
  · exact Or.inr (Or.inl (char_eq_of_toNat_eq (by rw [hn]; decide)))
  · exact Or.inr (Or.inr (Or.inl (char_eq_of_toNat_eq (by rw [hn]; decide))))
  · exact Or.inr (Or.inr (Or.inr (Or.inl (char_eq_of_toNat_eq (by rw [hn]; decide)))))
  · exact Or.inr (Or.inr (Or.inr (Or.inr (Or.inl (char_eq_of_toNat_eq (by
      rw [hn]; decide))))))
  · exact Or.inr (Or.inr (Or.inr (Or.inr (Or.inr (Or.inl (char_eq_of_toNat_eq (by
      rw [hn]; decide)))))))
  · exact Or.inr (Or.inr (Or.inr (Or.inr (Or.inr (Or.inr (Or.inl (char_eq_of_toNat_eq (by
      rw [hn]; decide))))))))
  · exact Or.inr (Or.inr (Or.inr (Or.inr (Or.inr (Or.inr (Or.inr (Or.inl
      (char_eq_of_toNat_eq (by rw [hn]; decide)))))))))
  · exact Or.inr (Or.inr (Or.inr (Or.inr (Or.inr (Or.inr (Or.inr (Or.inr (Or.inl
      (char_eq_of_toNat_eq (by rw [hn]; decide))))))))))
  · exact Or.inr (Or.inr (Or.inr (Or.inr (Or.inr (Or.inr (Or.inr (Or.inr (Or.inr
      (char_eq_of_toNat_eq (by rw [hn]; decide))))))))))

theorem parseValue_num_head {c : Char} (f : Nat) (cs : List Char)
    (h : c = '-' ∨ c.isDigit = true) :
    parseValue (f + 1) (c :: cs) = parseNum (c :: cs) := by
  rcases h with h | h
  · subst h
    rfl
  · rcases digit_char_cases h with
      rfl | rfl | rfl | rfl | rfl | rfl | rfl | rfl | rfl | rfl <;> rfl

theorem printNum_shape (m : Int) (e : Nat) :
    ∃ c t, printNum m e = c :: t ∧ (c = '-' ∨ c.isDigit = true) := by
  by_cases hm : m < 0
  · rw [printNum, if_pos hm]
    exact ⟨'-', _, rfl, Or.inl rfl⟩
  · rw [printNum, if_neg hm, List.nil_append]
    by_cases he : e = 0
    · rw [if_pos he]
      cases hn : natToDigits m.natAbs with
      | nil => exact absurd hn (natToDigits_ne_nil _)
      | cons c t =>
        refine ⟨c, t, rfl, Or.inr ?_⟩
        exact natToDigits_all_digits m.natAbs c (by rw [hn]; exact List.mem_cons_self c t)
    · rw [if_neg he]
      set A := natToDigits m.natAbs with hA
      set ds := List.replicate (e + 1 - A.length) '0' ++ A with hds
      have hA1 : 1 ≤ A.length := by
        cases hn : A with
        | nil => exact absurd hn (natToDigits_ne_nil _)
        | cons c t => simp
      have hlen : e + 1 ≤ ds.length := by
        have : ds.length = (e + 1 - A.length) + A.length := by simp [hds]
        omega
      have hilen : (ds.take (ds.length - e)).length = ds.length - e := by
        rw [List.length_take]
        omega
      cases hn : ds.take (ds.length - e) with
      | nil =>
        rw [hn] at hilen
        simp at hilen
        omega
      | cons c t =>
        refine ⟨c, t ++ '.' :: ds.drop (ds.length - e), by
          show ds.take (ds.length - e) ++ '.' :: ds.drop (ds.length - e) = _
          rw [hn]
          simp, Or.inr ?_⟩
        have hmem : c ∈ ds := List.mem_of_mem_take (by rw [hn]; exact List.mem_cons_self c t)
        rcases List.mem_append.mp hmem with h | h
        · rw [List.eq_of_mem_replicate h]; decide
        · exact natToDigits_all_digits m.natAbs c h

theorem printValue_shape (v : Json) :
    ∃ c t, printValue v = c :: t ∧
      (c = 'n' ∨ c = 't' ∨ c = 'f' ∨ c = '"' ∨ c = '[' ∨ c = '{' ∨
       c = '-' ∨ c.isDigit = true) := by
  cases v with
  | null => exact ⟨'n', _, rfl, by tauto⟩
  | bool b => cases b
              · exact ⟨'f', _, rfl, by tauto⟩
              · exact ⟨'t', _, rfl, by tauto⟩
  | num m e =>
    obtain ⟨c, t, hct, hc⟩ := printNum_shape m e
    exact ⟨c, t, by rw [show printValue (.num m e) = printNum m e from rfl, hct], by tauto⟩
  | str s => exact ⟨'"', _, rfl, by tauto⟩
  | arr items => cases items with
    | nil => exact ⟨'[', _, rfl, by tauto⟩
    | cons x xs => exact ⟨'[', _, rfl, by tauto⟩
  | obj fields => cases fields with
    | nil => exact ⟨'{', _, rfl, by tauto⟩
    | cons kv fs => exact ⟨'{', _, rfl, by tauto⟩

theorem printValue_length_pos (v : Json) : 1 ≤ (printValue v).length := by
  obtain ⟨c, t, hct, _⟩ := printValue_shape v
  rw [hct]
  simp

theorem printString_length (k : String) : 2 ≤ (printString k).length := by
  rw [printString]
  simp

theorem numSafe_items (xs : List Json) (rest : List Char) :
    numSafe (printItemsRest xs ++ ']' :: rest) = true := by
  cases xs with
  | nil => rfl
  | cons y ys => rfl

theorem numSafe_fields (fs : List (String × Json)) (rest : List Char) :
    numSafe (printFieldsRest fs ++ '}' :: rest) = true := by
  cases fs with
  | nil => rfl
  | cons kv ks => rfl

theorem shape_ne_rbracket {c : Char}
    (h : c = 'n' ∨ c = 't' ∨ c = 'f' ∨ c = '"' ∨ c = '[' ∨ c = '{' ∨
      c = '-' ∨ c.isDigit = true) : c ≠ ']' := by
  rcases h with rfl | rfl | rfl | rfl | rfl | rfl | rfl | h
  · decide
  · decide
  · decide
  · decide
  · decide
  · decide
  · decide
  · exact isDigit_ne h (by decide)

theorem quote_ne_rbrace : ('"' : Char) ≠ '}' := by decide

theorem string_mk_data (s : String) : String.mk s.data = s := rfl

theorem parse_print_all : ∀ f : Nat,
    (∀ (v : Json) (rest : List Char), (printValue v).length < f →
      numSafe rest = true → parseValue f (printValue v ++ rest) = some (v, rest)) ∧
    (∀ (xs : List Json) (rest : List Char), (printItemsRest xs).length < f →
      parseArrRest f (printItemsRest xs ++ ']' :: rest) = some (xs, rest)) ∧
    (∀ (kv : String × Json) (rest : List Char), (printField kv).length < f →
      numSafe rest = true → parseField f (printField kv ++ rest) = some (kv, rest)) ∧
    (∀ (fs : List (String × Json)) (rest : List Char), (printFieldsRest fs).length < f →
      parseObjRest f (printFieldsRest fs ++ '}' :: rest) = some (fs, rest)) := by
  intro f
  induction f with
  | zero =>
    refine ⟨?_, ?_, ?_, ?_⟩ <;> intro a rest hlen <;> omega
  | succ f ih =>
    obtain ⟨ihv, iha, ihf, iho⟩ := ih
    refine ⟨?_, ?_, ?_, ?_⟩
    · -- values
      intro v rest hlen hsafe
      cases v with
      | null => exact pv_null f rest
      | bool b =>
        cases b
        · exact pv_false f rest
        · exact pv_true f rest
      | num m e =>
        obtain ⟨c, t, hct, hc⟩ := printNum_shape m e
        show parseValue (f + 1) (printNum m e ++ rest) = _
        rw [hct, List.cons_append, parseValue_num_head f _ hc, ← List.cons_append, ← hct,
          parseNum_printNum m e rest hsafe]
      | str s =>
        show parseValue (f + 1) (printString s ++ rest) = _
        rw [printString]
        simp only [List.cons_append, List.append_assoc, List.nil_append]
        rw [pv_str, parseStringBody_print]
      | arr items =>
        cases items with
        | nil => exact pv_arr_nil f rest
        | cons x xs =>
          have hpv : printValue (.arr (x :: xs)) =
              '[' :: (printValue x ++ printItemsRest xs ++ [']']) := rfl
          rw [hpv] at hlen ⊢
          simp only [List.length_cons, List.length_append, List.length_singleton] at hlen
          obtain ⟨c, t, hct, hc⟩ := printValue_shape x
          have hlx : (printValue x).length < f := by
            have := printValue_length_pos x
            omega
          have hla : (printItemsRest xs).length < f := by
            have := printValue_length_pos x
            omega
          rw [List.cons_append, List.append_assoc, List.append_assoc, List.cons_append,
            List.nil_append]
          rw [hct, List.cons_append, pv_arr_step, if_neg (shape_ne_rbracket hc),
            ← List.cons_append, ← hct]
          rw [ihv x (printItemsRest xs ++ ']' :: rest) hlx (numSafe_items xs rest)]
          dsimp only
          rw [iha xs rest hla]
      | obj fields =>
        cases fields with
        | nil => exact pv_obj_nil f rest
        | cons kv fs =>
          have hpv : printValue (.obj (kv :: fs)) =
              '{' :: (printField kv ++ printFieldsRest fs ++ ['}']) := rfl
          rw [hpv] at hlen ⊢
          simp only [List.length_cons, List.length_append, List.length_singleton] at hlen
          obtain ⟨k, v⟩ := kv
          have hfshape : ∃ t, printField (k, v) = '"' :: t := by
            rw [printField, printString]
            exact ⟨_, rfl⟩
          obtain ⟨t, hct⟩ := hfshape
          have hlx : (printField (k, v)).length < f := by
            have h2 : 2 ≤ (printString k).length := printString_length k
            have h3 : (printField (k, v)).length =
                (printString k).length + 1 + (printValue v).length := by
              rw [printField]
              simp
              omega
            omega
          have hla : (printFieldsRest fs).length < f := by
            have h1 : 1 ≤ (printField (k, v)).length := by
              rw [hct]
              simp
            omega
          rw [List.cons_append, List.append_assoc, List.append_assoc, List.cons_append,
            List.nil_append]
          rw [hct, List.cons_append, pv_obj_step, if_neg (by decide : ('"' : Char) ≠ '}'),
            ← List.cons_append, ← hct]
          rw [ihf (k, v) (printFieldsRest fs ++ '}' :: rest) hlx (numSafe_fields fs rest)]
          dsimp only
          rw [iho fs rest hla]
    · -- array tails
      intro xs rest hlen
      cases xs with
      | nil => exact par_close f rest
      | cons y ys =>
        have hpr : printItemsRest (y :: ys) = ',' :: (printValue y ++ printItemsRest ys) :=
          rfl
        rw [hpr] at hlen ⊢
        simp only [List.length_cons, List.length_append] at hlen
        have hly : (printValue y).length < f := by
          have := printValue_length_pos y
          omega
        have hlys : (printItemsRest ys).length < f := by
          have := printValue_length_pos y
          omega
        rw [List.cons_append, List.append_assoc, par_comma]
        rw [ihv y (printItemsRest ys ++ ']' :: rest) hly (numSafe_items ys rest)]
        dsimp only
        rw [iha ys rest hlys]
    · -- fields
      intro kv rest hlen hsafe
      obtain ⟨k, v⟩ := kv
      have hpf : printField (k, v) = printString k ++ ':' :: printValue v := rfl
      rw [hpf] at hlen ⊢
      simp only [List.length_append, List.length_cons] at hlen
      have h2 : 2 ≤ (printString k).length := printString_length k
      have hlv : (printValue v).length < f := by omega
      rw [printString]
      simp only [List.cons_append, List.append_assoc, List.nil_append]
      rw [pf_open, parseStringBody_print]
      dsimp only
      split
      · next r2 heq =>
        obtain rfl : r2 = printValue v ++ rest := by
          cases heq
          rfl
        rw [ihv v rest hlv hsafe]
      · next hne => exact absurd rfl (hne (printValue v ++ rest))
    · -- object tails
      intro fs rest hlen
      cases fs with
      | nil => exact pobj_close f rest
      | cons kv ks =>
        have hpr : printFieldsRest (kv :: ks) = ',' :: (printField kv ++ printFieldsRest ks) :=
          rfl
        rw [hpr] at hlen ⊢
        simp only [List.length_cons, List.length_append] at hlen
        obtain ⟨k, v⟩ := kv
        have h1 : 1 ≤ (printField (k, v)).length := by
          have h2 : 2 ≤ (printString k).length := printString_length k
          have h3 : (printField (k, v)).length =
              (printString k).length + 1 + (printValue v).length := by
            rw [printField]
            simp
            omega
          omega
        have hlkv : (printField (k, v)).length < f := by omega
        have hlks : (printFieldsRest ks).length < f := by omega
        rw [List.cons_append, List.append_assoc, pobj_comma]
        rw [ihf (k, v) (printFieldsRest ks ++ '}' :: rest) hlkv (numSafe_fields ks rest)]
        dsimp only
        rw [iho ks rest hlks]

theorem jsonParse_jsonStringify (v : Json) : jsonParse (jsonStringify v) = some v := by
  unfold jsonParse jsonStringify
  have hd : (String.mk (printValue v)).data = printValue v := rfl
  rw [hd]
  have h := (parse_print_all ((printValue v).length + 1)).1 v [] (by omega) rfl
  rw [List.append_nil] at h
  rw [h]

/-- C8: for every tool name `t` and JSON payload `p`,
`formatToolOutput t p` returns exactly one content item, of type
"text", and JSON-parsing that item's text recovers exactly the object
`{tool: t, source: "conut-coo-agent", payload: p}`. -/
theorem formatToolOutput_roundtrip (t : String) (p : Json) :
    (formatToolOutput t p).content.length = 1 ∧
    ∀ item ∈ (formatToolOutput t p).content,
      item.type = "text" ∧
      jsonParse item.text =
        some (.obj [("tool", .str t), ("source", .str "conut-coo-agent"), ("payload", p)]) := by
  refine ⟨rfl, ?_⟩
  intro item hitem
  simp [formatToolOutput] at hitem
  subst hitem
  exact ⟨rfl, jsonParse_jsonStringify _⟩

/-- C7: the Control Room dashboard's view of the activity log is the
first at most five fetched events whose source is "openclaw": it never
exceeds the fixed capacity 5, every shown event has source "openclaw",
and it is an initial segment of the openclaw-filtered feed in fetched
order. -/
theorem recentAgentEvents_props (events : List ToolActivityEvent) :
    (recentAgentEvents events).length ≤ 5 ∧
    (∀ e ∈ recentAgentEvents events, e.source = "openclaw") ∧
    ∃ tail, events.filter (fun event => event.source == "openclaw") =
      recentAgentEvents events ++ tail := by
  refine ⟨?_, ?_, ?_⟩
  · exact List.length_take_le 5 _
  · intro e he
    have hmem : e ∈ events.filter (fun event => event.source == "openclaw") :=
      List.mem_of_mem_take he
    have := (List.mem_filter.mp hmem).2
    simpa using this
  · refine ⟨(events.filter (fun event => event.source == "openclaw")).drop 5, ?_⟩
    rw [show recentAgentEvents events =
      (events.filter (fun event => event.source == "openclaw")).take 5 from rfl]
    exact (List.take_append_drop 5 _).symm

/-- Witness for the dashboard-view theorem at a concrete feed. -/
theorem recentAgentEvents_props_witness : demoEventA.source = "openclaw" :=
  (recentAgentEvents_props demoEvents).2.1 demoEventA (by
    rw [show recentAgentEvents demoEvents = [demoEventA] from rfl]
    exact List.mem_cons_self _ _)



theorem string_data_append (a b : String) : (a ++ b).data = a.data ++ b.data := rfl

theorem joinComma_substr :
    ∀ (l : List String) (u : String), u ∈ l →
      ∃ p q, (joinComma l).data = p ++ u.data ++ q := by
  intro l
  induction l with
  | nil => intro u hu; simp at hu
  | cons a t ih =>
    intro u hu
    cases t with
    | nil =>
      simp at hu
      subst hu
      exact ⟨[], [], by simp [joinComma]⟩
    | cons b t2 =>
      rcases List.mem_cons.mp hu with h | h
      · subst h
        refine ⟨[], (", " ++ joinComma (b :: t2)).data, ?_⟩
        rw [show joinComma (u :: b :: t2) = u ++ ", " ++ joinComma (b :: t2) from rfl]
        rw [string_data_append, string_data_append]
        simp
      · obtain ⟨p, q, hpq⟩ := ih u h
        refine ⟨(a ++ ", ").data ++ p, q, ?_⟩
        rw [show joinComma (a :: b :: t2) = a ++ ", " ++ joinComma (b :: t2) from rfl]
        rw [string_data_append, hpq]
        simp

theorem substr_of_extend {u pre msg post : String} (h : ∃ p q, msg.data = p ++ u.data ++ q) :
    ∃ p q, (pre ++ msg ++ post).data = p ++ u.data ++ q := by
  obtain ⟨p, q, hpq⟩ := h
  refine ⟨pre.data ++ p, q ++ post.data, ?_⟩
  rw [string_data_append, string_data_append, hpq]
  simp

theorem unreachableMessage_substr (attemptedUrls : List String) (lastError : Option String)
    (u : String) (hu : u ∈ attemptedUrls) :
    ∃ p q, (unreachableMessage attemptedUrls lastError).data = p ++ u.data ++ q := by
  obtain ⟨p, q, hpq⟩ := joinComma_substr attemptedUrls u hu
  rw [show unreachableMessage attemptedUrls lastError =
    "Unable to reach Conut backend after trying " ++ joinComma attemptedUrls ++
      (". Last error: " ++
        (match lastError with
         | some m => m
         | none => "null")) from by
    unfold unreachableMessage
    rw [String.append_assoc]]
  exact substr_of_extend ⟨p, q, hpq⟩



theorem callBackendGo_ok (fetchAt : FetchRequest → FetchOutcome)
    (agentTool path bodyStr : String) :
    ∀ (candidates attempted : List String) (lastError : Option String) (b : String),
      firstOkBody fetchAt agentTool bodyStr (candidates.map (fun c => c ++ path)) = some b →
      (callBackendGo fetchAt agentTool path bodyStr candidates attempted lastError).2 =
        .success (parseBody b) := by
  intro candidates
  induction candidates with
  | nil =>
    intro attempted lastError b hb
    simp [firstOkBody] at hb
  | cons c rest ih =>
    intro attempted lastError b hb
    simp only [List.map_cons, firstOkBody] at hb
    simp only [callBackendGo]
    cases hf : fetchAt ⟨c ++ path, agentTool, bodyStr⟩ with
    | networkError msg =>
      rw [hf] at hb
      dsimp only at hb ⊢
      exact ih _ _ b hb
    | response status body =>
      rw [hf] at hb
      dsimp only at hb ⊢
      by_cases hok : responseOk status = true
      · rw [if_pos hok] at hb ⊢
        dsimp only
        obtain rfl : body = b := by
          cases hb
          rfl
        rfl
      · rw [if_neg hok] at hb ⊢
        dsimp only
        exact ih _ _ b hb

theorem callBackendGo_fail (fetchAt : FetchRequest → FetchOutcome)
    (agentTool path bodyStr : String) :
    ∀ (candidates attempted : List String) (lastError : Option String),
      firstOkBody fetchAt agentTool bodyStr (candidates.map (fun c => c ++ path)) = none →
      ∃ msg,
        (callBackendGo fetchAt agentTool path bodyStr candidates attempted lastError).2 =
          .failure msg ∧
        ∀ u, (u ∈ attempted ∨ u ∈ candidates.map (fun c => c ++ path)) →
          ∃ p q, msg.data = p ++ u.data ++ q := by
  intro candidates
  induction candidates with
  | nil =>
    intro attempted lastError _hb
    refine ⟨unreachableMessage attempted lastError, rfl, ?_⟩
    intro u hu
    rcases hu with hu | hu
    · exact unreachableMessage_substr attempted lastError u hu
    · simp at hu
  | cons c rest ih =>
    intro attempted lastError hb
    simp only [List.map_cons, firstOkBody] at hb
    simp only [callBackendGo]
    cases hf : fetchAt ⟨c ++ path, agentTool, bodyStr⟩ with
    | networkError msg0 =>
      rw [hf] at hb
      dsimp only at hb ⊢
      obtain ⟨msg, hres, hsub⟩ := ih (attempted ++ [c ++ path]) (some msg0) hb
      refine ⟨msg, hres, ?_⟩
      intro u hu
      apply hsub
      rcases hu with hu | hu
      · exact Or.inl (List.mem_append_left _ hu)
      · rcases List.mem_cons.mp hu with hu | hu
        · exact Or.inl (List.mem_append_right _ (by simp [hu]))
        · exact Or.inr hu
    | response status body =>
      rw [hf] at hb
      dsimp only at hb ⊢
      by_cases hok : responseOk status = true
      · rw [if_pos hok] at hb
        cases hb
      · rw [if_neg hok] at hb ⊢
        dsimp only
        obtain ⟨msg, hres, hsub⟩ := ih (attempted ++ [c ++ path])
          (some (failMessage status (c ++ path) (parseBody body))) hb
        refine ⟨msg, hres, ?_⟩
        intro u hu
        apply hsub
        rcases hu with hu | hu
        · exact Or.inl (List.mem_append_left _ hu)
        · rcases List.mem_cons.mp hu with hu | hu
          · exact Or.inl (List.mem_append_right _ (by simp [hu]))
          · exact Or.inr hu

theorem callBackendGo_requests (fetchAt : FetchRequest → FetchOutcome)
    (agentTool path bodyStr : String) :
    ∀ (candidates attempted : List String) (lastError : Option String),
      ∀ req ∈ (callBackendGo fetchAt agentTool path bodyStr candidates attempted lastError).1,
        (∃ b ∈ candidates, req.url = b ++ path) ∧ req.agentTool = agentTool ∧
          req.body = bodyStr := by
  intro candidates
  induction candidates with
  | nil =>
    intro attempted lastError req hreq
    simp [callBackendGo] at hreq
  | cons c rest ih =>
    intro attempted lastError req hreq
    simp only [callBackendGo] at hreq
    cases hf : fetchAt ⟨c ++ path, agentTool, bodyStr⟩ with
    | networkError msg0 =>
      rw [hf] at hreq
      dsimp only at hreq
      rcases List.mem_cons.mp hreq with h | h
      · subst h
        exact ⟨⟨c, List.mem_cons_self c rest, rfl⟩, rfl, rfl⟩
      · obtain ⟨⟨b, hbmem, hurl⟩, hag, hbody⟩ := ih (attempted ++ [c ++ path]) (some msg0) req h
        exact ⟨⟨b, List.mem_cons_of_mem c hbmem, hurl⟩, hag, hbody⟩
    | response status body =>
      rw [hf] at hreq
      dsimp only at hreq
      by_cases hok : responseOk status = true
      · rw [if_pos hok] at hreq
        dsimp only at hreq
        rcases List.mem_cons.mp hreq with h | h
        · subst h
          exact ⟨⟨c, List.mem_cons_self c rest, rfl⟩, rfl, rfl⟩
        · simp at h
      · rw [if_neg hok] at hreq
        dsimp only at hreq
        rcases List.mem_cons.mp hreq with h | h
        · subst h
          exact ⟨⟨c, List.mem_cons_self c rest, rfl⟩, rfl, rfl⟩
        · obtain ⟨⟨b, hbmem, hurl⟩, hag, hbody⟩ := ih (attempted ++ [c ++ path])
            (some (failMessage status (c ++ path) (parseBody body))) req h
          exact ⟨⟨b, List.mem_cons_of_mem c hbmem, hurl⟩, hag, hbody⟩

/-- C9: `callBackend` tries each candidate base URL in order and
returns the parsed body of the first candidate answering with an ok
status (non-JSON bodies having been wrapped as `{raw: text}` by
`parseBody`), never a value derived from a non-ok response; when no
candidate yields an ok response it fails with a message in which every
attempted URL occurs. -/
theorem callBackend_first_ok (env : Option String) (fetchAt : FetchRequest → FetchOutcome)
    (agentTool path : String) (payload : Json) :
    (∀ b, firstOkBody fetchAt agentTool (jsonStringify (payloadOrEmpty payload))
        ((buildApiUrlCandidates env).map (fun c => c ++ path)) = some b →
      (callBackend env fetchAt agentTool path payload).2 = .success (parseBody b)) ∧
    (firstOkBody fetchAt agentTool (jsonStringify (payloadOrEmpty payload))
        ((buildApiUrlCandidates env).map (fun c => c ++ path)) = none →
      ∃ msg, (callBackend env fetchAt agentTool path payload).2 = .failure msg ∧
        ∀ u ∈ (buildApiUrlCandidates env).map (fun c => c ++ path),
          ∃ p q, msg.data = p ++ u.data ++ q) := by
  constructor
  · intro b hb
    exact callBackendGo_ok fetchAt agentTool path _ (buildApiUrlCandidates env) [] none b hb
  · intro hb
    obtain ⟨msg, hres, hsub⟩ := callBackendGo_fail fetchAt agentTool path _
      (buildApiUrlCandidates env) [] none hb
    exact ⟨msg, hres, fun u hu => hsub u (Or.inr hu)⟩

/-- Witness for the forwarding theorem with an always-ok backend. -/
theorem callBackend_first_ok_witness :
    (callBackend none alwaysOkFetch "conut_demand_forecast" "/tools/forecast_demand"
      (Json.obj [])).2 = .success (parseBody "") :=
  (callBackend_first_ok none alwaysOkFetch "conut_demand_forecast" "/tools/forecast_demand"
    (Json.obj [])).1 "" (by decide)

/-- C5 amended: the plugin registers exactly the five claimed tools,
each mapped to its own distinct endpoint path, and each tool's
`execute` issues requests only at its own path (on the candidate base
URLs), carrying the tool's name and the serialization of
`input || {}` — which is the input itself whenever the input is truthy
(in particular for every object argument). -/
theorem tool_registration_and_forwarding :
    TOOL_SPECS.map (fun t => (t.name, t.path)) =
      [("conut_combo_optimization", "/tools/recommend_combos"),
       ("conut_demand_forecast", "/tools/forecast_demand"),
       ("conut_expansion_feasibility", "/tools/expansion_feasibility"),
       ("conut_shift_staffing", "/tools/estimate_staffing"),
       ("conut_growth_strategy", "/tools/growth_strategy")] ∧
    (TOOL_SPECS.map (fun t => t.name)).Nodup ∧
    (TOOL_SPECS.map (fun t => t.path)).Nodup ∧
    ∀ (env : Option String) (fetchAt : FetchRequest → FetchOutcome) (t : ToolSpec)
      (input : Json), t ∈ TOOL_SPECS →
      ∀ req ∈ (executeTool env fetchAt t input).1,
        (∃ b ∈ buildApiUrlCandidates env, req.url = b ++ t.path) ∧
        req.agentTool = t.name ∧
        req.body = jsonStringify (payloadOrEmpty input) ∧
        (jsTruthy input = true → payloadOrEmpty input = input) := by
  refine ⟨rfl, by decide, by decide, ?_⟩
  intro env fetchAt t input _ht req hreq
  have hreq2 : req ∈ (callBackend env fetchAt t.name t.path input).1 := by
    unfold executeTool at hreq
    cases hcb : callBackend env fetchAt t.name t.path input with
    | mk reqs res =>
      rw [hcb] at hreq
      cases res with
      | success d =>
        dsimp only at hreq
        exact hreq
      | failure m =>
        dsimp only at hreq
        exact hreq
  obtain ⟨hurl, hag, hbody⟩ := callBackendGo_requests fetchAt t.name t.path
    (jsonStringify (payloadOrEmpty input)) (buildApiUrlCandidates env) [] none req hreq2
  refine ⟨hurl, hag, hbody, ?_⟩
  intro htr
  unfold payloadOrEmpty
  rw [if_pos htr]

/-- Witness for the registration/forwarding theorem at the combo tool. -/
theorem tool_registration_and_forwarding_witness :
    ∃ b ∈ buildApiUrlCandidates none,
      ("http://127.0.0.1:8000/tools/recommend_combos" : String) = b ++ comboSpec.path :=
  (tool_registration_and_forwarding.2.2.2 none alwaysOkFetch comboSpec (Json.obj [])
    (List.mem_cons_self _ _)
    ⟨"http://127.0.0.1:8000/tools/recommend_combos", "conut_combo_optimization",
      String.mk ['{', '}']⟩
    (by
      rw [show (executeTool none alwaysOkFetch comboSpec (Json.obj [])).1 =
        [⟨"http://127.0.0.1:8000/tools/recommend_combos", "conut_combo_optimization",
          String.mk ['{', '}']⟩] from rfl]
      exact List.mem_cons_self _ _)).1

/-- C5 counterexample: with the falsy input `null`, `execute` does not
forward the input unchanged — the body sent to the backend is the
serialization of `{}` (because of `payload || {}`), not of `null`. -/
theorem execute_null_payload_sent_as_empty_object :
    payloadOrEmpty Json.null ≠ Json.null ∧
    jsonStringify Json.null = "null" ∧
    (executeTool none alwaysOkFetch comboSpec Json.null).1 =
      [⟨"http://127.0.0.1:8000/tools/recommend_combos", "conut_combo_optimization",
        String.mk ['{', '}']⟩] ∧
    String.mk ['{', '}'] ≠ "null" := by
  refine ⟨?_, rfl, rfl, by decide⟩
  intro h
  exact Json.noConfusion h


/-- Witness for the output-format round-trip at a concrete payload. -/
theorem formatToolOutput_roundtrip_witness :
    ∃ item ∈ (formatToolOutput "conut_demand_forecast" (Json.num 7 0)).content,
      item.type = "text" ∧
      jsonParse item.text =
        some (.obj [("tool", .str "conut_demand_forecast"),
          ("source", .str "conut-coo-agent"), ("payload", .num 7 0)]) :=
  ⟨_, List.mem_cons_self _ _,
    (formatToolOutput_roundtrip "conut_demand_forecast" (.num 7 0)).2 _
      (List.mem_cons_self _ _)⟩

end ConutCoo
